import Mathlib

/-!
A shallow embedding of `src/library/_str_mod.py`, the printf-style `%`
formatting engine for `str` and `bytes` (`Formatter.format`, its two
flavors `StringLikeFormatter` / `BytesLikeFormatter`, and the helper
field renderers `_format_string` and `_format_number`).

Text values are modelled as `List Char` (Unicode code points), byte
values as `List Nat` (each entry a byte).  Python integers are `Int`
(unbounded, as in Python).  Fallible operations return
`Except PyErr _`.  Primitives imported from `builtins` / `_builtins`
that are not part of the repository's sources (native code) are
modelled from the spec and marked as such in their doc comments.
-/

set_option maxRecDepth 8000

namespace StrMod

/-- Python floats as exercised by the formatter.  The native float-to-text
primitive `_float_format` is not under `src/`; the spec (section 6) treats
float-to-text as a black box, so float values are modelled as exact
fractions `num / den` (every IEEE double is such a fraction).  NaN and
negative zero are not representable in this model; no verified claim
exercises them. -/
structure PyFloat where
  num : Int
  den : Nat
deriving DecidableEq

/-- The Python values the formatter manipulates. -/
inductive PyVal where
  | int (n : Int)
  | str (s : List Char)
  | bytes (b : List Nat)
  | float (f : PyFloat)
  | tuple (items : List PyVal)
  | dict (entries : List (PyVal × PyVal))

/-- Python exceptions as raised by the formatter: the exception type
together with its message (for `KeyError`, the missing key). -/
inductive PyErr where
  | typeError (msg : String)
  | valueError (msg : String)
  | overflowError (msg : String)
  | keyError (key : String)
deriving DecidableEq

/-- An apostrophe, kept out of string literals. -/
def squote : String := String.singleton (Char.ofNat 39)

/-- The type name of a value, as Python's `_type(x).__name__`. -/
def typeName : PyVal → String
  | .int _ => "int"
  | .str _ => "str"
  | .bytes _ => "bytes"
  | .float _ => "float"
  | .tuple _ => "tuple"
  | .dict _ => "dict"

def _tuple_check : PyVal → Bool | .tuple _ => true | _ => false

def _str_check : PyVal → Bool | .str _ => true | _ => false

def _bytes_check : PyVal → Bool | .bytes _ => true | _ => false

def _int_check : PyVal → Bool | .int _ => true | _ => false

def _float_check : PyVal → Bool | .float _ => true | _ => false

/-- Modelled from the spec: `_mapping_check` comes from `builtins`, whose
source is not under `src/`.  Per spec section 3 mapping mode requires the
argument "to support key lookup"; in this value universe exactly `dict`
supports it. -/
def _mapping_check : PyVal → Bool | .dict _ => true | _ => false

/-- Modelled from the spec: `_number_check` comes from `builtins`, not under
`src/`.  Per spec section 4.1, `d`/`i`/`u` "require a numeric operand";
the numeric values of this universe are `int` and `float`. -/
def _number_check : PyVal → Bool | .int _ => true | .float _ => true | _ => false

/-- Modelled from the spec: `_index` comes from `builtins`, not under
`src/`.  Spec section 6: "given an arbitrary value, return an exact
integer index, or fail (distinct from numeric coercion)".  The message is
never observed: every caller in `_str_mod.py` catches the failure. -/
def _index : PyVal → Except PyErr Int
  | .int n => .ok n
  | v => .error (.typeError (squote ++ typeName v ++ squote ++
      " object cannot be interpreted as an integer"))

/-- Modelled from the spec: `_float` comes from `builtins`, not under
`src/`.  Spec section 6: "given an arbitrary value, return its
integer or float value, or fail if the value does not support numeric
coercion". -/
def _float : PyVal → Except PyErr PyFloat
  | .float f => .ok f
  | .int n => .ok ⟨n, 1⟩
  | v => .error (.typeError ("must be real number, not " ++ typeName v))

/-- Sign bit of a float (`_float_signbit`, native).  Negative zero and NaN
are not representable in the `PyFloat` model, so the sign bit is simply
negativity of the numerator (denominators are positive for well-formed
floats). -/
def _float_signbit (f : PyFloat) : Bool := f.num < 0

/-- `int(x)` applied to a value that passed `_number_check`: identity on
ints, truncation toward zero on floats (Python `int(float)`). -/
def pyIntOf : PyVal → Int
  | .int n => n
  | .float f =>
    if 0 ≤ f.num then ((f.num.natAbs / f.den : Nat) : Int)
    else -((f.num.natAbs / f.den : Nat) : Int)
  | _ => 0

/-- Modelled from the spec: the byte/text transcoding collaborator (spec
section 6, "given text, produce its byte encoding") — standard UTF-8
encoding of one code point.  Native codecs are out of scope of `src/`. -/
def utf8EncodeChar (n : Nat) : List Nat :=
  if n < 0x80 then [n]
  else if n < 0x800 then [0xC0 + n / 0x40, 0x80 + n % 0x40]
  else if n < 0x10000 then
    [0xE0 + n / 0x1000, 0x80 + n / 0x40 % 0x40, 0x80 + n % 0x40]
  else
    [0xF0 + n / 0x40000, 0x80 + n / 0x1000 % 0x40, 0x80 + n / 0x40 % 0x40,
      0x80 + n % 0x40]

/-- UTF-8 encoding of a text value (spec section 6 transcoding collaborator). -/
def utf8Encode (s : List Char) : List Nat :=
  (s.map (fun c => utf8EncodeChar c.toNat)).flatten

/-- Modelled from the spec: strict UTF-8 decoding ("given bytes, produce
text, or fail if invalid", spec section 6).  Rejects truncated sequences,
continuation-byte problems, overlong forms, surrogates and values beyond
U+10FFFF, as the strict codec does. -/
def utf8Decode : List Nat → Except PyErr (List Char)
  | [] => .ok []
  | b :: rest =>
    if b < 0x80 then
      (utf8Decode rest).map fun s => Char.ofNat b :: s
    else if b < 0xC2 then .error (.valueError "invalid utf-8")
    else
      match rest with
      | [] => .error (.valueError "invalid utf-8")
      | b2 :: rest2 =>
        if b < 0xE0 then
          if 0x80 ≤ b2 ∧ b2 < 0xC0 then
            (utf8Decode rest2).map fun s =>
              Char.ofNat ((b - 0xC0) * 0x40 + (b2 - 0x80)) :: s
          else .error (.valueError "invalid utf-8")
        else
          match rest2 with
          | [] => .error (.valueError "invalid utf-8")
          | b3 :: rest3 =>
            if b < 0xF0 then
              if 0x80 ≤ b2 ∧ b2 < 0xC0 ∧ 0x80 ≤ b3 ∧ b3 < 0xC0 then
                let v := (b - 0xE0) * 0x1000 + (b2 - 0x80) * 0x40 + (b3 - 0x80)
                if 0x800 ≤ v ∧ ¬(0xD800 ≤ v ∧ v < 0xE000) then
                  (utf8Decode rest3).map fun s => Char.ofNat v :: s
                else .error (.valueError "invalid utf-8")
              else .error (.valueError "invalid utf-8")
            else
              match rest3 with
              | [] => .error (.valueError "invalid utf-8")
              | b4 :: rest4 =>
                if b < 0xF5 then
                  if 0x80 ≤ b2 ∧ b2 < 0xC0 ∧ 0x80 ≤ b3 ∧ b3 < 0xC0 ∧
                      0x80 ≤ b4 ∧ b4 < 0xC0 then
                    let v := (b - 0xF0) * 0x40000 + (b2 - 0x80) * 0x1000 +
                      (b3 - 0x80) * 0x40 + (b4 - 0x80)
                    if 0x10000 ≤ v ∧ v < 0x110000 then
                      (utf8Decode rest4).map fun s => Char.ofNat v :: s
                    else .error (.valueError "invalid utf-8")
                  else .error (.valueError "invalid utf-8")
                else .error (.valueError "invalid utf-8")

/-- Decimal rendering of an integer (`int.__str__`). -/
def intDecimal (n : Int) : List Char :=
  if n < 0 then '-' :: Nat.toDigits 10 n.natAbs else Nat.toDigits 10 n.natAbs

/-- Modelled from the spec: `bytes(x)`, the builtin constructor used by
`BytesLikeFormatter.as_str`, is not under `src/`.  Python semantics: bytes
pass through, a non-negative int yields that many zero bytes, a tuple of
in-range ints yields those bytes, text without an encoding and other
values raise `TypeError`. -/
def pyBytesOf : PyVal → Except PyErr (List Nat)
  | .bytes b => .ok b
  | .int n =>
    if 0 ≤ n then .ok (List.replicate n.toNat 0)
    else .error (.valueError "negative count")
  | .tuple items =>
    items.foldr (fun it acc => do
      let rest ← acc
      match it with
      | .int n =>
        if 0 ≤ n ∧ n < 256 then pure (n.toNat :: rest)
        else .error (.valueError "bytes must be in range(0, 256)")
      | v => .error (.typeError (squote ++ typeName v ++ squote ++
          " object cannot be interpreted as an integer"))) (.ok [])
  | v => .error (.typeError ("cannot convert " ++ squote ++ typeName v ++
      squote ++ " object to bytes"))

/-- Modelled from the spec: `_float_format` is a native primitive not under
`src/`.  Spec sections 4.1 and 6 specify it only as a black box that
"delegates magnitude formatting" and returns the digit-fragment text of the
float, parameterized by conversion letter, precision and alternate form.
It is modelled as fixed-point rendering of the magnitude with half-up
rounding, which reproduces the spec's examples (`"%.2f" (3.0)` is `"3.00"`,
`"%.*f" (2, 3.14159)` is `"3.14"`); the exponent-style letters are not
exercised by any verified claim and reuse the same rendering. -/
def _float_format (f : PyFloat) (letter : Char) (precision : Nat)
    (alt : Bool) : List Char :=
  let _ := letter
  let a := f.num.natAbs
  let scaled := (2 * a * 10 ^ precision + f.den) / (2 * f.den)
  let ip := scaled / 10 ^ precision
  let fp := scaled % 10 ^ precision
  let fpDigits := Nat.toDigits 10 fp
  if precision = 0 then
    if alt then Nat.toDigits 10 ip ++ ['.'] else Nat.toDigits 10 ip
  else
    Nat.toDigits 10 ip ++ '.' ::
      (List.replicate (precision - fpDigits.length) '0' ++ fpDigits)

/-- Modelled from the spec: the builtin `str(x)` conversion (used by
`StringLikeFormatter.as_str` and `cast`) is not under `src/`.  Spec
section 4.2: for the textual flavor it is "identity-like (already native
text)"; renderings of non-text values are given a minimal model, none of
which is exercised by a verified claim. -/
def pyStr : PyVal → List Char
  | .str s => s
  | .int n => intDecimal n
  | .float f =>
    (if f.num < 0 then ['-'] else []) ++ _float_format f 'f' 6 false
  | .bytes b => 'b' :: Char.ofNat 39 :: (b.map Char.ofNat) ++ [Char.ofNat 39]
  | .tuple _ => "<tuple>".toList
  | .dict _ => "<dict>".toList

/-- Modelled from the spec: the builtin `repr` ("the language's canonical
repr", spec section 4.2) is not under `src/`.  A minimal model: quoted for
text, decimal for numbers; not exercised by any verified claim. -/
def pyRepr : PyVal → List Char
  | .str s => Char.ofNat 39 :: s ++ [Char.ofNat 39]
  | v => pyStr v

/-- Modelled from the spec: the builtin `ascii` is not under `src/`.
Minimal model reusing `pyRepr`; not exercised by any verified claim. -/
def pyAscii (v : PyVal) : List Char := pyRepr v

/-! ## The two flavors (`StringLikeFormatter` / `BytesLikeFormatter`) -/

/-- The flavor of a `format` call: the textual `StringLikeFormatter` or the
binary `BytesLikeFormatter`. -/
inductive Flavor where
  | text
  | binary
deriving DecidableEq

/-- `Formatter.CATEGORY`. -/
def CATEGORY : Flavor → String
  | .text => "string"
  | .binary => "bytes"

/-- `Formatter.cast`, at its two call sites (the parenthesized-name key and
the accumulated result), both of which pass text: the textual flavor's
`str` is the identity there, the binary flavor's encodes to UTF-8 bytes. -/
def cast : Flavor → List Char → PyVal
  | .text, s => .str s
  | .binary, s => .bytes (utf8Encode s)

/-- `as_str`: `str(x)` for the textual flavor; for the binary flavor,
decode bytes (or the `__bytes__`/`bytes()` conversion of the value) as
UTF-8, raising the `%b requires a bytes-like object` `TypeError` when the
value does not convert (`BytesLikeFormatter.as_str`). -/
def as_str : Flavor → PyVal → Except PyErr (List Char)
  | .text, v => .ok (pyStr v)
  | .binary, .bytes b => utf8Decode b
  | .binary, v =>
    match pyBytesOf v with
    | .ok b => utf8Decode b
    | .error _ => .error (.typeError
        ("%b requires a bytes-like object, or an object that implements __bytes__, not "
          ++ squote ++ typeName v ++ squote))

/-- `as_repr`: `repr` for the textual flavor; for the binary flavor, the
repr with every code point above one byte re-escaped as `\U########`
(`BytesLikeFormatter.as_repr`). -/
def as_repr : Flavor → PyVal → List Char
  | .text, v => pyRepr v
  | .binary, v =>
    ((pyRepr v).map fun c =>
      if c.toNat ≤ 0xff then [c]
      else
        let ds := Nat.toDigits 16 c.toNat
        '\\' :: 'U' :: (List.replicate (8 - ds.length) '0' ++ ds)).flatten

/-- `Formatter.not_all_arguments_converted`. -/
def not_all_arguments_converted (fl : Flavor) : PyErr :=
  .typeError ("not all arguments converted during " ++ CATEGORY fl ++ " formatting")

/-- `percent_c_not_in_range`: the textual message interpolates
`sys.maxunicode + 1 = 0x110000`.  (The binary hook `raise`s the error
instead of returning it; the observable effect at its only call site,
`raise self.percent_c_not_in_range()`, is the same propagated exception.) -/
def percent_c_not_in_range : Flavor → PyErr
  | .text => .overflowError "%c arg not in range(0x110000)"
  | .binary => .overflowError "%c arg not in range(256)"

/-- `percent_c_overflow`.  With unbounded model integers `chr` never
raises `OverflowError`, so this hook is unreachable in the embedding; it
is kept for completeness. -/
def percent_c_overflow : Flavor → PyErr
  | .text => .typeError "%c requires int or char"
  | .binary => .overflowError "%c arg not in range(256)"

/-- `percent_c_requires_int_or_char`. -/
def percent_c_requires_int_or_char : Flavor → PyErr
  | .text => .typeError "%c requires int or char"
  | .binary => .typeError "%c requires an integer in range(256) or a single byte"

/-- `percent_d_a_number_is_required` (the binary flavor renames `i` to `d`). -/
def percent_d_a_number_is_required (fl : Flavor) (c : Char) (tname : String) : PyErr :=
  match fl with
  | .text => .typeError ("%" ++ String.singleton c ++
      " format: a number is required, not " ++ tname)
  | .binary =>
    let c := if c = 'i' then 'd' else c
    .typeError ("%" ++ String.singleton c ++
      " format: a number is required, not " ++ tname)

/-- `must_be_real_number`: the textual flavor re-raises the exception from
`_float` unchanged, the binary flavor raises its own `TypeError`. -/
def must_be_real_number (fl : Flavor) (float_exception : PyErr) (tname : String) : PyErr :=
  match fl with
  | .text => float_exception
  | .binary => .typeError ("float argument required, not " ++ tname)

/-! ## Field renderers -/

def _FLAG_LJUST : Nat := 1

def _FLAG_ZERO : Nat := 2

/-- `_format_string(result, flags, width, precision, fragment)`: precision
truncates the fragment from the right, then width pads with spaces on the
side selected by the left-justify flag.  The mutated `_str_array` is
modelled by returning the extended accumulator. -/
def _format_string (result : List Char) (flags : Nat) (width precision : Int)
    (fragment : List Char) : List Char :=
  let fragment := if 0 ≤ precision then fragment.take precision.toNat else fragment
  if width ≤ 0 then result ++ fragment
  else
    let padding_len : Int := width - fragment.length
    if 0 < padding_len ∧ flags &&& _FLAG_LJUST = 0 then
      result ++ List.replicate padding_len.toNat ' ' ++ fragment
    else
      result ++ fragment ++
        (if 0 < padding_len then List.replicate padding_len.toNat ' ' else [])

/-- `_format_number(result, flags, width, precision, sign, prefix,
fragment)`: assembles space padding, sign, base prefix, leading zeros and
the digit fragment exactly as the source does (the `pfx` parameter is the
source's `prefix`). -/
def _format_number (result : List Char) (flags : Nat) (width precision : Int)
    (sign pfx fragment : List Char) : List Char :=
  if width ≤ 0 ∧ precision < 0 then result ++ sign ++ pfx ++ fragment
  else
    let fragment_len : Int := fragment.length
    let padding_len : Int := width - fragment_len - sign.length - pfx.length
    let num_leading_zeros : Int := if 0 ≤ precision then precision - fragment_len else 0
    let padding_len : Int :=
      if 0 < num_leading_zeros then padding_len - num_leading_zeros else padding_len
    let zero_pad := flags &&& _FLAG_ZERO ≠ 0 ∧ flags &&& _FLAG_LJUST = 0
    let num_leading_zeros : Int :=
      if zero_pad ∧ 0 < padding_len then num_leading_zeros + padding_len
      else num_leading_zeros
    let padding_len : Int := if zero_pad then 0 else padding_len
    let lead := if 0 < padding_len ∧ flags &&& _FLAG_LJUST = 0 then
        List.replicate padding_len.toNat ' '
      else []
    let padding_len : Int :=
      if 0 < padding_len ∧ flags &&& _FLAG_LJUST = 0 then 0 else padding_len
    let zeros := if 0 < num_leading_zeros then
        List.replicate num_leading_zeros.toNat '0'
      else []
    let trail := if 0 < padding_len then List.replicate padding_len.toNat ' ' else []
    result ++ lead ++ sign ++ pfx ++ zeros ++ fragment ++ trail

/-! ## The directive scanner (`Formatter.format`)

The source drives a character iterator with a running index, copying
literal runs `string[begin:idx]` when it reaches a `%` and raising
`ValueError("incomplete format")` when the template ends inside a
directive (via the `in_specifier` flag and the `StopIteration` handler).
The embedding scans the remaining template as a list: `splitAtPercent`
yields the literal run and the suffix after the `%`, and each helper that
needs a further character returns the incomplete-format error when none
is left — the same observable behavior. -/

/-- The loop state of `Formatter.format`: the working positional tuple,
the next positional index, the lazily-initialized mapping (`args_dict`)
and the output accumulator (`result`).  The source's `args_len` is always
`args_tuple.length` and is not duplicated. -/
structure LoopState where
  args_tuple : List PyVal
  arg_idx : Nat
  args_dict : Option (List (PyVal × PyVal))
  result : List Char

/-- Scan to the next `%`: returns the literal prefix and, when a `%` was
found, the suffix following it. -/
def splitAtPercent : List Char → List Char × Option (List Char)
  | [] => ([], none)
  | c :: rest =>
    if c = '%' then ([], some rest)
    else
      let (pre, r) := splitAtPercent rest
      (c :: pre, r)

/-- The parenthesized-key scan (lines 173–182): consume until the paren
count returns to zero, returning the key and the suffix after the closing
parenthesis; `none` when the template ends first (incomplete format). -/
def scanKey (pcount : Nat) (acc : List Char) : List Char → Option (List Char × List Char)
  | [] => none
  | c :: rest =>
    if c = ')' then
      if pcount = 1 then some (acc, rest) else scanKey (pcount - 1) (acc ++ [c]) rest
    else if c = '(' then scanKey (pcount + 1) (acc ++ [c]) rest
    else scanKey pcount (acc ++ [c]) rest

/-- Python dict lookup for the `%(name)` value: keys are compared with the
cast key (a text or bytes value). -/
def dictLookup (entries : List (PyVal × PyVal)) (key : PyVal) : Option PyVal :=
  (entries.find? fun e =>
    match key, e.1 with
    | .str s, .str t => s = t
    | .bytes a, .bytes b => a = b
    | _, _ => false).map (·.2)

/-- The flag-parsing loop (lines 194–213): `-` `+` ` ` `#` `0`, stopping at
the first non-flag character (which remains at the head of the returned
list); the error is the incomplete-format failure when the template ends
while another character is expected. -/
def parseFlags (flags : Nat) (positive_sign : List Char) (use_alt_formatting : Bool) :
    List Char → Except PyErr (Nat × List Char × Bool × List Char)
  | [] => .error (.valueError "incomplete format")
  | c :: rest =>
    if c = '-' then parseFlags (flags ||| _FLAG_LJUST) positive_sign use_alt_formatting rest
    else if c = '+' then parseFlags flags ['+'] use_alt_formatting rest
    else if c = ' ' then
      parseFlags flags (if positive_sign = ['+'] then positive_sign else [' '])
        use_alt_formatting rest
    else if c = '#' then parseFlags flags positive_sign true rest
    else if c = '0' then parseFlags (flags ||| _FLAG_ZERO) positive_sign use_alt_formatting rest
    else .ok (flags, positive_sign, use_alt_formatting, c :: rest)

/-- The digit-run loops of width (lines 230–238) and precision (lines
256–263): accumulate decimal digits; the character after the run must
exist (otherwise the template ended inside the directive). -/
def takeDigits (acc : Nat) : List Char → Except PyErr (Nat × List Char)
  | [] => .error (.valueError "incomplete format")
  | c :: rest =>
    if '0' ≤ c ∧ c ≤ '9' then takeDigits (acc * 10 + (c.toNat - '0'.toNat)) rest
    else .ok (acc, c :: rest)

/-- Key scan plus lookup of a `%(name)` directive (lines 173–192): scan
the parenthesized key, look it up in the mapping, and rebind the
positional list to the single looked-up value. -/
def handleNamedLookup (fl : Flavor) (d : List (PyVal × PyVal)) (st : LoopState)
    (l1 : List Char) : Except PyErr (LoopState × List Char) :=
  match scanKey 1 [] l1 with
  | none => .error (.valueError "incomplete format")
  | some (key, l2) =>
    match dictLookup d (cast fl key) with
    | none => .error (.keyError (String.mk key))
    | some value =>
      .ok ({ st with args_tuple := [value], arg_idx := 0, args_dict := some d }, l2)

/-- The `%(name)` branch (lines 161–192): when the head is `(`, lazily
check/initialize `args_dict` and perform the lookup; otherwise leave the
state untouched. -/
def handleNamed (fl : Flavor) (args : PyVal) (st : LoopState) (l : List Char) :
    Except PyErr (LoopState × List Char) :=
  match l with
  | [] => .ok (st, l)
  | c :: l1 =>
    if c = '(' then
      match st.args_dict with
      | some d => handleNamedLookup fl d st l1
      | none =>
        if _tuple_check args || _str_check args || !(_mapping_check args) then
          .error (.typeError "format requires a mapping")
        else
          match args with
          | .dict d => handleNamedLookup fl d st l1
          | _ => .error (.typeError "format requires a mapping")
    else .ok (st, l)

/-- Width parsing (lines 215–238): `*` pulls the next positional argument
(bounds-checked, must be an int; a negative value sets left-justify and
is negated), a digit run is parsed literally, anything else leaves the
width at `-1`. -/
def parseWidth (st : LoopState) (flags : Nat) (l : List Char) :
    Except PyErr (LoopState × Nat × Int × List Char) :=
  match l with
  | [] => .error (.valueError "incomplete format")
  | c :: l1 =>
    if c = '*' then
      if st.args_tuple.length ≤ st.arg_idx then
        .error (.typeError "not enough arguments for format string")
      else
        let arg := st.args_tuple.getD st.arg_idx (.int 0)
        let st := { st with arg_idx := st.arg_idx + 1 }
        match arg with
        | .int n =>
          if n < 0 then .ok (st, flags ||| _FLAG_LJUST, -n, l1)
          else .ok (st, flags, n, l1)
        | _ => .error (.typeError "* wants int")
    else if '0' ≤ c ∧ c ≤ '9' then
      (takeDigits 0 (c :: l1)).map fun (w, rest) => (st, flags, (w : Int), rest)
    else .ok (st, flags, -1, c :: l1)

/-- Precision parsing (lines 240–263): an optional `.` followed by `*`
(clamped to at least 0) or a digit run; a bare `.` leaves an explicit
precision of 0, no `.` leaves `-1`. -/
def parsePrecision (st : LoopState) (l : List Char) :
    Except PyErr (LoopState × Int × List Char) :=
  match l with
  | [] => .error (.valueError "incomplete format")
  | c :: l1 =>
    if c = '.' then
      match l1 with
      | [] => .error (.valueError "incomplete format")
      | c2 :: l2 =>
        if c2 = '*' then
          if st.args_tuple.length ≤ st.arg_idx then
            .error (.typeError "not enough arguments for format string")
          else
            let arg := st.args_tuple.getD st.arg_idx (.int 0)
            let st := { st with arg_idx := st.arg_idx + 1 }
            match arg with
            | .int n => .ok (st, max 0 n, l2)
            | _ => .error (.typeError "* wants int")
        else if '0' ≤ c2 ∧ c2 ≤ '9' then
          (takeDigits 0 (c2 :: l2)).map fun (p, rest) => (st, (p : Int), rest)
        else .ok (st, 0, c2 :: l2)
    else .ok (st, -1, c :: l1)

/-- The positional-argument fetch of lines 266–269. -/
def nextArg (st : LoopState) : Except PyErr (LoopState × PyVal) :=
  if st.args_tuple.length ≤ st.arg_idx then
    .error (.typeError "not enough arguments for format string")
  else
    .ok ({ st with arg_idx := st.arg_idx + 1 }, st.args_tuple.getD st.arg_idx (.int 0))

/-- Dispatch on the conversion character `c` (lines 271–396): compute the
fragment and hand it to the field renderer, returning the extended output
accumulator.  `total_len` is the template length, used only to
reconstruct the source's running index for the unsupported-conversion
message (`c` sits at index `total_len - l.length - 1`). -/
def dispatchResult (fl : Flavor) (total_len flags : Nat) (positive_sign : List Char)
    (use_alt_formatting : Bool) (width precision : Int) (arg : PyVal)
    (result : List Char) (c : Char) (l : List Char) :
    Except PyErr (List Char) :=
  if c = 's' then
    (as_str fl arg).map fun fragment =>
      _format_string result flags width precision fragment
  else if c = 'r' then
    let fragment := as_repr fl arg
    .ok (_format_string result flags width precision fragment)
  else if c = 'a' then
    let fragment := pyAscii arg
    .ok (_format_string result flags width precision fragment)
  else if c = 'c' then
    match arg with
    | .str s =>
      if s.length ≠ 1 then .error (percent_c_requires_int_or_char fl)
      else .ok (_format_string result flags width precision s)
    | _ =>
      match _index arg with
      | .error _ => .error (percent_c_requires_int_or_char fl)
      | .ok v =>
        if 0 ≤ v ∧ v < 0x110000 then
          .ok (_format_string result flags width precision [Char.ofNat v.toNat])
        else .error (percent_c_not_in_range fl)
  else if c = 'd' ∨ c = 'i' ∨ c = 'u' then
    if !(_number_check arg) then
      .error (percent_d_a_number_is_required fl c (typeName arg))
    else
      let value := pyIntOf arg
      let (value, sign) := if value < 0 then (-value, ['-']) else (value, positive_sign)
      let fragment := intDecimal value
      .ok (_format_number result flags width precision sign [] fragment)
  else if c = 'x' then
    match (if !(_number_check arg) then .error () else (_index arg).mapError fun _ => ()) with
    | .error _ => .error (.typeError ("%" ++ String.singleton c ++
        " format: an integer is required, not " ++ typeName arg))
    | .ok v =>
      let (value, sign) := if v < 0 then (-v, ['-']) else (v, positive_sign)
      let pfx := if use_alt_formatting then ['0', 'x'] else []
      let fragment := Nat.toDigits 16 value.toNat
      .ok (_format_number result flags width precision sign pfx fragment)
  else if c = 'X' then
    match (if !(_number_check arg) then .error () else (_index arg).mapError fun _ => ()) with
    | .error _ => .error (.typeError ("%" ++ String.singleton c ++
        " format: an integer is required, not " ++ typeName arg))
    | .ok v =>
      let (value, sign) := if v < 0 then (-v, ['-']) else (v, positive_sign)
      let pfx := if use_alt_formatting then ['0', 'X'] else []
      let fragment := (Nat.toDigits 16 value.toNat).map Char.toUpper
      .ok (_format_number result flags width precision sign pfx fragment)
  else if c = 'o' then
    match (if !(_number_check arg) then .error () else (_index arg).mapError fun _ => ()) with
    | .error _ => .error (.typeError
        ("%o format: an integer is required, not " ++ typeName arg))
    | .ok v =>
      let (value, sign) := if v < 0 then (-v, ['-']) else (v, positive_sign)
      let pfx := if use_alt_formatting then ['0', 'o'] else []
      let fragment := Nat.toDigits 8 value.toNat
      .ok (_format_number result flags width precision sign pfx fragment)
  else if c = 'e' ∨ c = 'E' ∨ c = 'f' ∨ c = 'F' ∨ c = 'g' ∨ c = 'G' then
    match _float arg with
    | .error float_exception =>
      .error (must_be_real_number fl float_exception (typeName arg))
    | .ok value =>
      let precision := if precision < 0 then 6 else precision
      let sign := if _float_signbit value then ['-'] else positive_sign
      let fragment := _float_format value c precision.toNat use_alt_formatting
      .ok (_format_number result flags width 0 sign [] fragment)
  else
    .error (.valueError ("unsupported format character " ++ squote ++
      String.singleton c ++ squote ++ " (0x" ++
      String.mk (Nat.toDigits 16 c.toNat) ++ ") at index " ++
      Nat.repr (total_len - l.length - 1)))

/-- The dispatch step as seen by the scanning loop: the new output
accumulator is written back into the state, and the suffix after the
conversion character is returned unchanged. -/
def dispatch (fl : Flavor) (total_len flags : Nat) (positive_sign : List Char)
    (use_alt_formatting : Bool) (width precision : Int) (arg : PyVal)
    (st : LoopState) (c : Char) (l : List Char) :
    Except PyErr (LoopState × List Char) :=
  (dispatchResult fl total_len flags positive_sign use_alt_formatting width precision
    arg st.result c l).map fun res => ({ st with result := res }, l)

/-- One directive body, from the character after `%` on: the `%%` escape,
the optional `%(name)` reference, flags, width, precision, the argument
fetch and the conversion dispatch.  Returns the updated state and the
template suffix after the conversion character. -/
def processDirective (fl : Flavor) (args : PyVal) (total_len : Nat)
    (st : LoopState) (l : List Char) : Except PyErr (LoopState × List Char) :=
  match l with
  | [] => .error (.valueError "incomplete format")
  | c :: l1 =>
    if c = '%' then .ok ({ st with result := st.result ++ ['%'] }, l1)
    else do
      let (st, l) ← handleNamed fl args st (c :: l1)
      let (flags, positive_sign, use_alt_formatting, l) ← parseFlags 0 [] false l
      let (st, flags, width, l) ← parseWidth st flags l
      let (st, precision, l) ← parsePrecision st l
      match l with
      | [] => .error (.valueError "incomplete format")
      | c :: l2 => do
        let (st, arg) ← nextArg st
        dispatch fl total_len flags positive_sign use_alt_formatting width precision
          arg st c l2

/-- The scanning loop: copy the literal run, process one directive,
repeat.  The fuel argument only bounds the number of directives; claim C9
proves that `template.length + 1` is always sufficient (`none` is the
out-of-fuel sentinel). -/
def formatLoop (fl : Flavor) (args : PyVal) (total_len : Nat) :
    Nat → LoopState → List Char → Option (Except PyErr LoopState)
  | 0, _, _ => none
  | fuel + 1, st, l =>
    match splitAtPercent l with
    | (pre, none) => some (.ok { st with result := st.result ++ pre })
    | (pre, some rest) =>
      match processDirective fl args total_len { st with result := st.result ++ pre } rest with
      | .error e => some (.error e)
      | .ok (st', rest') => formatLoop fl args total_len fuel st' rest'

/-- `Formatter.format(string, args)`: coerce the template, set up the
positional tuple, run the scanning loop, apply the excess-arguments check
of lines 408–412 and cast the accumulator back to the flavor's type. -/
def format (fl : Flavor) (string : PyVal) (args : PyVal) : Except PyErr PyVal :=
  match as_str fl string with
  | .error e => .error e
  | .ok s =>
    let args_tuple := match args with | .tuple t => t | _ => [args]
    let st : LoopState := ⟨args_tuple, 0, none, []⟩
    match formatLoop fl args s.length (s.length + 1) st s with
    | none => .error (.valueError "incomplete format")
    | some (.error e) => .error e
    | some (.ok st) =>
      if st.arg_idx < st.args_tuple.length ∧ st.args_dict.isNone then
        if _tuple_check args || _str_check args || !(_mapping_check args) then
          .error (not_all_arguments_converted fl)
        else .ok (cast fl st.result)
      else .ok (cast fl st.result)

/-- `str_format = StringLikeFormatter().format`. -/
def str_format (string args : PyVal) : Except PyErr PyVal := format .text string args

/-- `bytes_format = BytesLikeFormatter().format`. -/
def bytes_format (string args : PyVal) : Except PyErr PyVal := format .binary string args

/-! ## Scanner lemmas -/

theorem splitAtPercent_no_percent (l : List Char) (h : '%' ∉ l) :
    splitAtPercent l = (l, none) := by
  induction l with
  | nil => rfl
  | cons c rest ih =>
    simp only [List.mem_cons, not_or] at h
    simp [splitAtPercent, Ne.symm h.1, ih h.2]

theorem splitAtPercent_append (pre rest : List Char) (h : '%' ∉ pre) :
    splitAtPercent (pre ++ '%' :: rest) = (pre, some rest) := by
  induction pre with
  | nil => simp [splitAtPercent]
  | cons c p ih =>
    simp only [List.mem_cons, not_or] at h
    simp [splitAtPercent, Ne.symm h.1, ih h.2]

theorem splitAtPercent_some (l : List Char) : ∀ pre rest,
    splitAtPercent l = (pre, some rest) → l = pre ++ '%' :: rest := by
  induction l with
  | nil => intro pre rest h; exact absurd h (by simp [splitAtPercent])
  | cons c t ih =>
    intro pre rest h
    rw [splitAtPercent.eq_def] at h
    simp only [] at h
    by_cases hc : c = '%'
    · rw [if_pos hc] at h
      injection h with h1 h2
      injection h2 with h2
      subst hc h2
      rw [← h1]
      rfl
    · rw [if_neg hc] at h
      cases hp : splitAtPercent t with
      | mk p r =>
        rw [hp] at h
        simp only [] at h
        injection h with h1 h2
        subst h1 h2
        simp [ih p rest hp]

/-- Unfold one loop iteration when fuel remains. -/
theorem formatLoop_of_pos (fl : Flavor) (args : PyVal) (tl : Nat) (fuel : Nat)
    (h : fuel ≠ 0) (st : LoopState) (l : List Char) :
    formatLoop fl args tl fuel st l =
      match splitAtPercent l with
      | (pre, none) => some (.ok { st with result := st.result ++ pre })
      | (pre, some rest) =>
        match processDirective fl args tl { st with result := st.result ++ pre } rest with
        | .error e => some (.error e)
        | .ok (st', rest') => formatLoop fl args tl (fuel - 1) st' rest' := by
  cases fuel with
  | zero => exact absurd rfl h
  | succ n => rfl

/-- A `%`-free template is copied verbatim by the loop. -/
theorem formatLoop_literal (fl : Flavor) (args : PyVal) (tl fuel : Nat)
    (st : LoopState) (l : List Char) (hl : '%' ∉ l) (hf : fuel ≠ 0) :
    formatLoop fl args tl fuel st l = some (.ok { st with result := st.result ++ l }) := by
  rw [formatLoop_of_pos fl args tl fuel hf st l, splitAtPercent_no_percent l hl]

/-! ## UTF-8 round trip -/

theorem char_valid_range (c : Char) :
    c.toNat < 0xd800 ∨ (0xdfff < c.toNat ∧ c.toNat < 0x110000) := by
  have h := c.valid
  unfold UInt32.isValidChar at h
  unfold Nat.isValidChar at h
  exact h

theorem utf8Decode_encodeChar (c : Char) (rest : List Nat) :
    utf8Decode (utf8EncodeChar c.toNat ++ rest) =
      (utf8Decode rest).map (c :: ·) := by
  have hv := char_valid_range c
  have hofNat : Char.ofNat c.toNat = c := Char.ofNat_toNat c
  unfold utf8EncodeChar
  split_ifs with h1 h2 h3
  · simp only [List.cons_append, List.nil_append]
    rw [utf8Decode.eq_def]
    try simp only []
    rw [if_pos h1, hofNat]
  · simp only [List.cons_append, List.nil_append]
    rw [utf8Decode.eq_def]
    try simp only []
    rw [if_neg (by omega), if_neg (by omega)]
    try simp only []
    rw [if_pos (by omega), if_pos (by omega)]
    have hval : (0xC0 + c.toNat / 0x40 - 0xC0) * 0x40 + (0x80 + c.toNat % 0x40 - 0x80)
        = c.toNat := by omega
    rw [hval, hofNat]
  · simp only [List.cons_append, List.nil_append]
    rw [utf8Decode.eq_def]
    try simp only []
    rw [if_neg (by omega), if_neg (by omega)]
    try simp only []
    rw [if_neg (by omega)]
    try simp only []
    rw [if_pos (by omega), if_pos (by omega)]
    have hval : (0xE0 + c.toNat / 0x1000 - 0xE0) * 0x1000 +
        (0x80 + c.toNat / 0x40 % 0x40 - 0x80) * 0x40 + (0x80 + c.toNat % 0x40 - 0x80)
        = c.toNat := by omega
    rw [hval]
    rw [if_pos (by omega)]
    rw [hofNat]
  · simp only [List.cons_append, List.nil_append]
    rw [utf8Decode.eq_def]
    try simp only []
    rw [if_neg (by omega), if_neg (by omega)]
    try simp only []
    rw [if_neg (by omega)]
    try simp only []
    rw [if_neg (by omega)]
    try simp only []
    rw [if_pos (by omega), if_pos (by omega)]
    have hval : (0xF0 + c.toNat / 0x40000 - 0xF0) * 0x40000 +
        (0x80 + c.toNat / 0x1000 % 0x40 - 0x80) * 0x1000 +
        (0x80 + c.toNat / 0x40 % 0x40 - 0x80) * 0x40 + (0x80 + c.toNat % 0x40 - 0x80)
        = c.toNat := by omega
    rw [hval]
    rw [if_pos (by omega)]
    rw [hofNat]

theorem utf8Decode_utf8Encode (s : List Char) : utf8Decode (utf8Encode s) = .ok s := by
  induction s with
  | nil => rfl
  | cons c t ih =>
    show utf8Decode (utf8EncodeChar c.toNat ++ utf8Encode t) = _
    rw [utf8Decode_encodeChar, ih]
    rfl

/-! ## Claim C1 -/

/-- C1, counterexample: the claim "for every template containing no `%`
character and every argument value, `format(template, args)` returns the
template unchanged" fails on the code.  A `%`-free textual template with a
non-empty tuple argument raises the excess-arguments `TypeError` (lines
408–412), and a `%`-free binary template that is not valid UTF-8 raises a
decode error before any scanning (line 125). -/
theorem claim_C1_counterexample :
    str_format (.str "abc".toList) (.tuple [.int 1]) =
      .error (not_all_arguments_converted .text) ∧
    bytes_format (.bytes [255]) (.tuple []) = .error (.valueError "invalid utf-8") :=
  ⟨rfl, rfl⟩

/-- C1, amended: for every template with no `%` character, `format`
returns the template unchanged provided the argument is an empty tuple or
a mapping (for the binary flavor, on templates that are valid UTF-8,
i.e. in the image of the encoding); with a non-empty tuple or any other
non-mapping argument the excess-arguments error of the counterexample is
raised instead. -/
theorem claim_C1_amended :
    (∀ (s : List Char) (args : PyVal), '%' ∉ s →
      (args = .tuple [] ∨ _mapping_check args) →
      str_format (.str s) args = .ok (.str s)) ∧
    (∀ (s : List Char) (args : PyVal), '%' ∉ s →
      (args = .tuple [] ∨ _mapping_check args) →
      bytes_format (.bytes (utf8Encode s)) args = .ok (.bytes (utf8Encode s))) := by
  constructor
  · intro s args hs hargs
    show format .text (.str s) args = _
    unfold format
    simp only [as_str, pyStr]
    rw [formatLoop_literal _ _ _ _ _ _ hs (Nat.succ_ne_zero _)]
    rcases hargs with h | h
    · subst h
      simp [cast]
    · cases args <;> simp [_mapping_check] at h
      simp [_tuple_check, _str_check, _mapping_check, cast]
  · intro s args hs hargs
    show format .binary (.bytes (utf8Encode s)) args = _
    unfold format
    simp only [as_str]
    rw [utf8Decode_utf8Encode]
    simp only []
    rw [formatLoop_literal _ _ _ _ _ _ hs (Nat.succ_ne_zero _)]
    rcases hargs with h | h
    · subst h
      simp [cast]
    · cases args <;> simp [_mapping_check] at h
      simp [_tuple_check, _str_check, _mapping_check, cast]

/-- Witness for the amended C1 at concrete inputs. -/
theorem claim_C1_amended_witness :
    str_format (.str "abc".toList) (.tuple []) = .ok (.str "abc".toList) ∧
    bytes_format (.bytes (utf8Encode "xy".toList)) (.dict []) =
      .ok (.bytes (utf8Encode "xy".toList)) :=
  ⟨claim_C1_amended.1 "abc".toList (.tuple []) (by decide) (.inl rfl),
   claim_C1_amended.2 "xy".toList (.dict []) (by decide) (.inr rfl)⟩

/-! ## Claim C2 -/

/-- C2: the claim says the binary flavor raises a value-out-of-range error
for a `%c` integer outside 0–255, in particular for 256.  The code does
not: `chr(256)` succeeds (the only range check is `chr`'s own code-point
bound), so `bytes_format(b"%c", (256,))` returns the UTF-8 encoding of
U+0100, `b"\xc4\x80"`, instead of raising.  The textual half of the claim
does hold, and the binary range error only fires outside the code-point
range, as the third conjunct shows — contradicting the code's own message
`%c arg not in range(256)`. -/
theorem claim_C2_code_behavior :
    bytes_format (.bytes [37, 99]) (.tuple [.int 256]) = .ok (.bytes [196, 128]) ∧
    str_format (.str "%c".toList) (.tuple [.int 0x1F600]) =
      .ok (.str [Char.ofNat 0x1F600]) ∧
    bytes_format (.bytes [37, 99]) (.tuple [.int 0x110000]) =
      .error (percent_c_not_in_range .binary) :=
  ⟨rfl, rfl, rfl⟩

/-! ## Claim C3 -/

/-- C3: the claim says a one-byte value is used verbatim by a binary `%c`.
The code rejects it: only `_str_check` guards the verbatim path, so a
one-byte bytes argument falls through to `_index`, which fails, and the
`%c requires an integer in range(256) or a single byte` `TypeError` is
raised (first conjunct) — contradicting that very message.  The textual
parts of the claim hold: a one-character text argument is used verbatim,
an index-convertible argument is mapped to the character, and
non-convertible or wrong-length arguments raise the flavor's type error. -/
theorem claim_C3_code_behavior :
    bytes_format (.bytes [37, 99]) (.tuple [.bytes [97]]) =
      .error (percent_c_requires_int_or_char .binary) ∧
    str_format (.str "%c".toList) (.tuple [.str ['A']]) = .ok (.str ['A']) ∧
    str_format (.str "%c".toList) (.tuple [.int 66]) = .ok (.str ['B']) ∧
    str_format (.str "%c".toList) (.tuple [.str ['a', 'b']]) =
      .error (percent_c_requires_int_or_char .text) ∧
    str_format (.str "%c".toList) (.tuple [.float ⟨1, 1⟩]) =
      .error (percent_c_requires_int_or_char .text) :=
  ⟨rfl, rfl, rfl, rfl, rfl⟩

/-! ## Claim C4 -/

theorem ite_replicate {α : Type} (c : Prop) [Decidable c] (n : Nat) (a : α) :
    (if c then List.replicate n a else []) = List.replicate (if c then n else 0) a := by
  split_ifs <;> rfl

/-- C4, counterexample: the claim says the leading zeros additionally
cover the width deficit whenever the zero-pad flag is set and
left-justify is not.  They do not when an explicit precision is smaller
than the fragment: the negative precision deficit absorbs the width
padding (lines 67–77), so `format("%011.5d", (9999999999,))` produces a
10-character result, one short of the requested width 11 (and with no
zeros at all). -/
theorem claim_C4_counterexample :
    str_format (.str "%011.5d".toList) (.tuple [.int 9999999999]) =
      .ok (.str "9999999999".toList) ∧
    ("9999999999".toList.length = 10 ∧ (10 : Nat) < 11) :=
  ⟨rfl, rfl, by decide⟩

/-- C4, amended: numeric field assembly emits, in order, space padding
(only for right-justified output), the sign, the base prefix, leading
zeros, the digit fragment, and trailing space padding (only for
left-justified output); when the zero-pad flag is set and left-justify is
not, no space padding is emitted at all; the zeros cover any precision
deficit, and they additionally cover the width deficit when zero-padding
is active — provided the precision is unset or at least the fragment
length (when an explicit precision is smaller than the fragment, the
negative precision deficit can swallow the width deficit, as in the
counterexample); in particular `format("%05d", (-3,))` is `"-0003"`. -/
theorem claim_C4_amended :
    (∀ (result : List Char) (flags : Nat) (width precision : Int)
        (sign pfx fragment : List Char),
      ∃ p z t : Nat,
        _format_number result flags width precision sign pfx fragment =
          result ++ List.replicate p ' ' ++ sign ++ pfx ++
            List.replicate z '0' ++ fragment ++ List.replicate t ' ' ∧
        (flags &&& _FLAG_LJUST ≠ 0 → p = 0) ∧
        (flags &&& _FLAG_LJUST = 0 → t = 0) ∧
        (flags &&& _FLAG_ZERO ≠ 0 ∧ flags &&& _FLAG_LJUST = 0 → p = 0 ∧ t = 0) ∧
        (0 ≤ precision → precision ≤ (z : Int) + fragment.length) ∧
        (0 ≤ width →
          (flags &&& _FLAG_ZERO = 0 ∨ flags &&& _FLAG_LJUST ≠ 0 ∨
            precision < 0 ∨ (fragment.length : Int) ≤ precision) →
          width ≤ ((p : Int) + sign.length + pfx.length + z +
            fragment.length + t))) ∧
    str_format (.str "%05d".toList) (.tuple [.int (-3)]) = .ok (.str "-0003".toList) := by
  refine ⟨?_, rfl⟩
  intro result flags width precision sign pfx fragment
  by_cases h0 : width ≤ 0 ∧ precision < 0
  · refine ⟨0, 0, 0, by simp [_format_number, h0], by simp, by simp, by simp, ?_, ?_⟩
    · intro hp; omega
    · intro hw _
      have : width = 0 := by omega
      simp [this]
      positivity
  · simp only [_format_number, if_neg h0, ite_replicate]
    refine ⟨_, _, _, rfl, ?_, ?_, ?_, ?_, ?_⟩
    · intro hl
      simp [hl]
    · intro hl
      simp only [hl, not_true_eq_false, and_false, and_true]
      split_ifs <;> omega
    · rintro ⟨hz, hl⟩
      simp only [hz, hl, not_false_eq_true, not_true_eq_false, and_false, and_true,
        true_and, false_and, if_false]
      constructor <;> split_ifs <;> omega
    · intro hp
      split_ifs <;> omega
    · intro hw hcov
      split_ifs <;> omega

/-- Witness for C4's universally quantified part at concrete inputs
(the `%05d` instance: flags = zero-pad, width 5, sign `-`, fragment `3`). -/
theorem claim_C4_witness :
    ∃ p z t : Nat,
      _format_number [] 2 5 (-1) ['-'] [] ['3'] =
        [] ++ List.replicate p ' ' ++ ['-'] ++ [] ++
          List.replicate z '0' ++ ['3'] ++ List.replicate t ' ' ∧
      ((2 : Nat) &&& _FLAG_LJUST ≠ 0 → p = 0) ∧
      ((2 : Nat) &&& _FLAG_LJUST = 0 → t = 0) ∧
      ((2 : Nat) &&& _FLAG_ZERO ≠ 0 ∧ (2 : Nat) &&& _FLAG_LJUST = 0 → p = 0 ∧ t = 0) ∧
      ((0 : Int) ≤ -1 → (-1 : Int) ≤ (z : Int) + [('3' : Char)].length) ∧
      ((0 : Int) ≤ 5 →
        ((2 : Nat) &&& _FLAG_ZERO = 0 ∨ (2 : Nat) &&& _FLAG_LJUST ≠ 0 ∨
          (-1 : Int) < 0 ∨ (([('3' : Char)].length : Int) ≤ -1)) →
        (5 : Int) ≤ ((p : Int) + [('-' : Char)].length +
          ([] : List Char).length + z + [('3' : Char)].length + t)) :=
  claim_C4_amended.1 [] 2 5 (-1) ['-'] [] ['3']

/-! ## Claim C5 -/

/-- C5: `%s` precision truncates from the right — `format("%.3s",
("hello",))` is `"hel"` — and is idempotent: any value of length at most
3 (in particular any previous `%.3s` output) is returned unchanged by
another `%.3s` pass. -/
theorem claim_C5_truncation :
    str_format (.str "%.3s".toList) (.tuple [.str "hello".toList]) =
      .ok (.str "hel".toList) ∧
    ∀ s : List Char, s.length ≤ 3 →
      str_format (.str "%.3s".toList) (.tuple [.str s]) = .ok (.str s) := by
  refine ⟨rfl, ?_⟩
  intro s hs
  have h : str_format (.str "%.3s".toList) (.tuple [.str s]) =
      .ok (.str (List.take 3 s ++ [])) := rfl
  rw [h, List.append_nil, List.take_of_length_le hs]

/-- Witness for C5's universally quantified part at the concrete
already-truncated input `"hel"`. -/
theorem claim_C5_witness :
    str_format (.str "%.3s".toList) (.tuple [.str "hel".toList]) =
      .ok (.str "hel".toList) :=
  claim_C5_truncation.2 "hel".toList (by decide)

/-! ## Claim C6 -/

/-- C6: a `*` width pulls the next positional argument, which must be an
int (anything else raises `TypeError("* wants int")`); a negative `*`
width sets the left-justify flag and its absolute value becomes the
width; a `*` precision below 0 is clamped to 0; and concretely
`format("%*d", (5, 3))` is `"    3"`, `format("%.*f", (2, 3.14159))` is
`"3.14"`, `format("%*d", (-5, 3))` is `"3    "`, and
`format("%.*s", (-2, "hello"))` is `""`. -/
theorem claim_C6_star_width_precision :
    str_format (.str "%*d".toList) (.tuple [.int 5, .int 3]) =
      .ok (.str "    3".toList) ∧
    str_format (.str "%.*f".toList) (.tuple [.int 2, .float ⟨314159, 100000⟩]) =
      .ok (.str "3.14".toList) ∧
    (∀ (st : LoopState) (flags : Nat) (arg : PyVal) (rest : List Char),
      st.arg_idx < st.args_tuple.length →
      st.args_tuple.getD st.arg_idx (.int 0) = arg →
      _int_check arg = false →
      parseWidth st flags ('*' :: rest) = .error (.typeError "* wants int")) ∧
    (∀ (st : LoopState) (flags : Nat) (w : Int) (rest : List Char),
      st.arg_idx < st.args_tuple.length →
      st.args_tuple.getD st.arg_idx (.int 0) = .int w →
      w < 0 →
      parseWidth st flags ('*' :: rest) =
        .ok ({ st with arg_idx := st.arg_idx + 1 }, flags ||| _FLAG_LJUST, -w, rest)) ∧
    (∀ (st : LoopState) (p : Int) (rest : List Char),
      st.arg_idx < st.args_tuple.length →
      st.args_tuple.getD st.arg_idx (.int 0) = .int p →
      p < 0 →
      parsePrecision st ('.' :: '*' :: rest) =
        .ok ({ st with arg_idx := st.arg_idx + 1 }, 0, rest)) ∧
    str_format (.str "%*d".toList) (.tuple [.int (-5), .int 3]) =
      .ok (.str "3    ".toList) ∧
    str_format (.str "%.*s".toList) (.tuple [.int (-2), .str "hello".toList]) =
      .ok (.str [])  := by
  refine ⟨rfl, rfl, ?_, ?_, ?_, rfl, rfl⟩
  · intro st flags arg rest hidx hget hint
    simp only [parseWidth, if_true]
    rw [if_neg (by omega), hget]
    cases arg <;> simp [_int_check] at hint ⊢
  · intro st flags w rest hidx hget hneg
    simp only [parseWidth, if_true]
    rw [if_neg (by omega), hget]
    simp only [if_pos hneg]
  · intro st p rest hidx hget hneg
    simp only [parsePrecision, if_true]
    rw [if_neg (by omega), hget]
    simp only []
    rw [show max 0 p = 0 by omega]

/-- Witness for C6's universally quantified parts at concrete states. -/
theorem claim_C6_witness :
    parseWidth ⟨[.str ['x']], 0, none, []⟩ 0 ('*' :: ['d']) =
      .error (.typeError "* wants int") ∧
    parseWidth ⟨[.int (-5)], 0, none, []⟩ 0 ('*' :: ['d']) =
      .ok (⟨[.int (-5)], 1, none, []⟩, 0 ||| _FLAG_LJUST, -(-5 : Int), ['d']) ∧
    parsePrecision ⟨[.int (-2)], 0, none, []⟩ ('.' :: '*' :: ['s']) =
      .ok (⟨[.int (-2)], 1, none, []⟩, 0, ['s']) :=
  ⟨claim_C6_star_width_precision.2.2.1 _ 0 (.str ['x']) ['d'] (by decide) rfl rfl,
   claim_C6_star_width_precision.2.2.2.1 _ 0 (-5) ['d'] (by decide) rfl (by decide),
   claim_C6_star_width_precision.2.2.2.2.1 _ (-2) ['s'] (by decide) rfl (by decide)⟩

/-! ## Claim C8 -/

theorem string_data_append (a b : String) : (a ++ b).data = a.data ++ b.data := by
  cases a
  cases b
  rfl

theorem string_singleton_data (c : Char) : (String.singleton c).data = [c] := rfl

theorem string_mk_data (l : List Char) : (String.mk l).data = l := rfl

/-- C8: for any conversion character outside the recognized set
`s r a c d i u x X o e E f F g G`, the dispatch raises a `ValueError`
whose message contains the character, its ordinal (in `0x...` form, as
the source's `{ord(c):#x}`) and its template index; concretely,
`format("%z", (1,))` raises the error naming `z` and its ordinal `0x7a`
at index 1. -/
theorem claim_C8_unsupported_conversion :
    (∀ (fl : Flavor) (total_len flags : Nat) (positive_sign : List Char)
        (use_alt_formatting : Bool) (width precision : Int) (arg : PyVal)
        (st : LoopState) (c : Char) (l : List Char),
      c ∉ ['s', 'r', 'a', 'c', 'd', 'i', 'u', 'x', 'X', 'o',
           'e', 'E', 'f', 'F', 'g', 'G'] →
      ∃ msg : String,
        dispatch fl total_len flags positive_sign use_alt_formatting width precision
          arg st c l = .error (.valueError msg) ∧
        [c] <:+: msg.data ∧
        ('0' :: 'x' :: Nat.toDigits 16 c.toNat) <:+: msg.data ∧
        (Nat.repr (total_len - l.length - 1)).data <:+: msg.data) ∧
    str_format (.str "%z".toList) (.tuple [.int 1]) =
      .error (.valueError ("unsupported format character " ++ squote ++ "z" ++
        squote ++ " (0x7a) at index 1")) := by
  refine ⟨?_, rfl⟩
  intro fl total_len flags positive_sign use_alt_formatting width precision arg st c l hc
  simp only [List.mem_cons, not_or] at hc
  obtain ⟨hs, hr, ha, hcc, hd, hi, hu, hx, hX, ho, he, hE, hf, hF, hg, hG, -⟩ := hc
  refine ⟨"unsupported format character " ++ squote ++ String.singleton c ++ squote ++
      " (0x" ++ String.mk (Nat.toDigits 16 c.toNat) ++ ") at index " ++
      Nat.repr (total_len - l.length - 1), ?_, ?_, ?_, ?_⟩
  · have hdr : dispatchResult fl total_len flags positive_sign use_alt_formatting
        width precision arg st.result c l =
        .error (.valueError ("unsupported format character " ++ squote ++
          String.singleton c ++ squote ++ " (0x" ++
          String.mk (Nat.toDigits 16 c.toNat) ++ ") at index " ++
          Nat.repr (total_len - l.length - 1))) := by
      simp only [dispatchResult]
      rw [if_neg hs, if_neg hr, if_neg ha, if_neg hcc, if_neg (by simp [hd, hi, hu]),
        if_neg hx, if_neg hX, if_neg ho, if_neg (by simp [he, hE, hf, hF, hg, hG])]
    simp only [dispatch, hdr]
    rfl
  · exact ⟨("unsupported format character " ++ squote).data,
      (squote ++ " (0x" ++ String.mk (Nat.toDigits 16 c.toNat) ++ ") at index " ++
        Nat.repr (total_len - l.length - 1)).data,
      by simp [string_data_append, string_singleton_data, List.append_assoc]⟩
  · refine ⟨("unsupported format character " ++ squote ++ String.singleton c ++
        squote).data ++ [' ', '('],
      (") at index " ++ Nat.repr (total_len - l.length - 1)).data, ?_⟩
    have h1 : (" (0x" : String).data = [' ', '(', '0', 'x'] := rfl
    simp [string_data_append, string_singleton_data, string_mk_data, h1,
      List.append_assoc]
  · refine ⟨("unsupported format character " ++ squote ++ String.singleton c ++
        squote ++ " (0x" ++ String.mk (Nat.toDigits 16 c.toNat) ++
        ") at index ").data, [], ?_⟩
    simp [string_data_append, List.append_assoc]

/-- Witness for C8's universally quantified part at `c = 'z'`. -/
theorem claim_C8_witness :
    ∃ msg : String,
      dispatch .text 2 0 [] false (-1) (-1) (.int 1) ⟨[.int 1], 1, none, []⟩ 'z' [] =
        .error (.valueError msg) ∧
      ['z'] <:+: msg.data ∧
      ('0' :: 'x' :: Nat.toDigits 16 'z'.toNat) <:+: msg.data ∧
      (Nat.repr (2 - ([] : List Char).length - 1)).data <:+: msg.data :=
  claim_C8_unsupported_conversion.1 .text 2 0 [] false (-1) (-1) (.int 1)
    ⟨[.int 1], 1, none, []⟩ 'z' [] (by decide)

/-! ## Directive-parser specifications (consumption and state tracking) -/

theorem scanKey_length : ∀ (l : List Char) (pcount : Nat) (acc k rest : List Char),
    scanKey pcount acc l = some (k, rest) → rest.length < l.length := by
  intro l
  induction l with
  | nil => intro p acc k rest h; exact absurd h (by simp [scanKey])
  | cons c t ih =>
    intro p acc k rest h
    rw [scanKey.eq_def] at h
    simp only [] at h
    split_ifs at h with h1 h2 h3
    · injection h with h
      injection h with h1' h2'
      subst h2'
      simp
    · have := ih _ _ _ _ h
      simp only [List.length_cons]
      omega
    · have := ih _ _ _ _ h
      simp only [List.length_cons]
      omega
    · have := ih _ _ _ _ h
      simp only [List.length_cons]
      omega

theorem takeDigits_length : ∀ (l : List Char) (acc n : Nat) (rest : List Char),
    takeDigits acc l = .ok (n, rest) → rest.length ≤ l.length := by
  intro l
  induction l with
  | nil => intro acc n rest h; exact absurd h (by simp [takeDigits])
  | cons c t ih =>
    intro acc n rest h
    rw [takeDigits.eq_def] at h
    simp only [] at h
    split_ifs at h with h1
    · have := ih _ _ _ h
      simp only [List.length_cons]
      omega
    · injection h with h
      injection h with h1' h2'
      subst h2'
      simp

theorem parseFlags_length : ∀ (l : List Char) (flags : Nat) (ps : List Char) (alt : Bool)
    (f : Nat) (p : List Char) (a : Bool) (rest : List Char),
    parseFlags flags ps alt l = .ok (f, p, a, rest) → rest.length ≤ l.length := by
  intro l
  induction l with
  | nil => intro _ _ _ _ _ _ rest h; exact absurd h (by simp [parseFlags])
  | cons c t ih =>
    intro flags ps alt f p a rest h
    rw [parseFlags.eq_def] at h
    simp only [] at h
    split_ifs at h <;>
      first
        | (have hle := ih _ _ _ _ _ _ _ h
           simp only [List.length_cons]
           omega)
        | (injection h with h
           injection h with e1 h
           injection h with e2 h
           injection h with e3 h4
           subst h4
           exact Nat.le_refl _)

theorem handleNamedLookup_spec (fl : Flavor) (d : List (PyVal × PyVal))
    (st : LoopState) (l1 : List Char) (st' : LoopState) (rest : List Char)
    (h : handleNamedLookup fl d st l1 = .ok (st', rest)) :
    rest.length < l1.length ∧ st'.args_dict = some d := by
  unfold handleNamedLookup at h
  cases hk : scanKey 1 [] l1 with
  | none => rw [hk] at h; exact absurd h (by simp)
  | some kv =>
    obtain ⟨key, l2⟩ := kv
    rw [hk] at h
    simp only [] at h
    cases hl : dictLookup d (cast fl key) with
    | none => rw [hl] at h; exact absurd h (by simp)
    | some v =>
      rw [hl] at h
      injection h with h
      injection h with h1 h2
      subst h2
      exact ⟨scanKey_length _ _ _ _ _ hk, by rw [← h1]⟩

theorem handleNamed_spec (fl : Flavor) (args : PyVal) (st : LoopState) (l : List Char)
    (st' : LoopState) (rest : List Char)
    (h : handleNamed fl args st l = .ok (st', rest)) :
    rest.length ≤ l.length ∧
    (∀ d, st.args_dict = some d → st'.args_dict = some d) ∧
    (st'.args_dict = none → st' = st) := by
  cases l with
  | nil =>
    unfold handleNamed at h
    injection h with h
    injection h with h1 h2
    subst h2
    rw [← h1]
    exact ⟨Nat.le_refl _, fun d hd => hd, fun _ => rfl⟩
  | cons c l1 =>
    rw [handleNamed.eq_def] at h
    simp only [] at h
    by_cases h1 : c = '('
    · rw [if_pos h1] at h
      cases hd : st.args_dict with
      | some d =>
        rw [hd] at h
        simp only [] at h
        obtain ⟨hlen, hdict⟩ := handleNamedLookup_spec _ _ _ _ _ _ h
        refine ⟨by simp only [List.length_cons]; omega, ?_, ?_⟩
        · intro d' hd'
          injection hd' with hd'
          rw [← hd']
          exact hdict
        · intro hn
          rw [hdict] at hn
          exact absurd hn (by simp)
      | none =>
        rw [hd] at h
        simp only [] at h
        by_cases h2 : (_tuple_check args || _str_check args || !_mapping_check args) = true
        · rw [if_pos h2] at h
          exact absurd h (by simp)
        · rw [if_neg h2] at h
          cases args <;> try exact Except.noConfusion h
          rename_i d
          obtain ⟨hlen, hdict⟩ := handleNamedLookup_spec _ _ _ _ _ _ h
          refine ⟨by simp only [List.length_cons]; omega, ?_, ?_⟩
          · intro d' hd'
            exact absurd hd' (by simp)
          · intro hn
            rw [hdict] at hn
            exact absurd hn (by simp)
    · rw [if_neg h1] at h
      injection h with h
      injection h with h1' h2'
      subst h2'
      rw [← h1']
      exact ⟨Nat.le_refl _, fun d hd => hd, fun _ => rfl⟩

theorem parseWidth_spec (st : LoopState) (flags : Nat) (l : List Char)
    (st' : LoopState) (f : Nat) (w : Int) (rest : List Char)
    (h : parseWidth st flags l = .ok (st', f, w, rest)) :
    rest.length ≤ l.length ∧ st'.args_dict = st.args_dict ∧
    st'.args_tuple = st.args_tuple ∧ st.arg_idx ≤ st'.arg_idx := by
  cases l with
  | nil => exact absurd h (by simp [parseWidth])
  | cons c l1 =>
    rw [parseWidth.eq_def] at h
    simp only [] at h
    by_cases h1 : c = '*'
    · rw [if_pos h1] at h
      by_cases h2 : st.args_tuple.length ≤ st.arg_idx
      · rw [if_pos h2] at h
        exact absurd h (by simp)
      · rw [if_neg h2] at h
        cases hg : st.args_tuple.getD st.arg_idx (.int 0) <;> rw [hg] at h <;>
          try exact Except.noConfusion h
        rename_i n
        · simp only [] at h
          by_cases h4 : n < 0
          · rw [if_pos h4] at h
            injection h with h
            injection h with h5 h
            injection h with h6 h
            injection h with h7 h8
            subst h8
            rw [← h5]
            exact ⟨by simp, rfl, rfl, Nat.le_succ _⟩
          · rw [if_neg h4] at h
            injection h with h
            injection h with h5 h
            injection h with h6 h
            injection h with h7 h8
            subst h8
            rw [← h5]
            exact ⟨by simp, rfl, rfl, Nat.le_succ _⟩
    · rw [if_neg h1] at h
      by_cases h3 : '0' ≤ c ∧ c ≤ '9'
      · rw [if_pos h3] at h
        cases ht : takeDigits 0 (c :: l1) with
        | error e => rw [ht] at h; exact absurd h (by simp [Except.map])
        | ok v =>
          obtain ⟨n, r⟩ := v
          rw [ht] at h
          simp only [Except.map] at h
          injection h with h
          injection h with h5 h
          injection h with h6 h
          injection h with h7 h8
          subst h8
          rw [← h5]
          exact ⟨takeDigits_length _ _ _ _ ht, rfl, rfl, Nat.le_refl _⟩
      · rw [if_neg h3] at h
        injection h with h
        injection h with h5 h
        injection h with h6 h
        injection h with h7 h8
        subst h8
        rw [← h5]
        exact ⟨Nat.le_refl _, rfl, rfl, Nat.le_refl _⟩

theorem parsePrecision_spec (st : LoopState) (l : List Char)
    (st' : LoopState) (p : Int) (rest : List Char)
    (h : parsePrecision st l = .ok (st', p, rest)) :
    rest.length ≤ l.length ∧ st'.args_dict = st.args_dict ∧
    st'.args_tuple = st.args_tuple ∧ st.arg_idx ≤ st'.arg_idx := by
  cases l with
  | nil => exact absurd h (by simp [parsePrecision])
  | cons c l1 =>
    rw [parsePrecision.eq_def] at h
    simp only [] at h
    by_cases h1 : c = '.'
    · rw [if_pos h1] at h
      cases l1 with
      | nil => exact absurd h (by simp)
      | cons c2 l2 =>
        simp only [] at h
        by_cases h2 : c2 = '*'
        · rw [if_pos h2] at h
          by_cases h3 : st.args_tuple.length ≤ st.arg_idx
          · rw [if_pos h3] at h
            exact absurd h (by simp)
          · rw [if_neg h3] at h
            cases hg : st.args_tuple.getD st.arg_idx (.int 0) <;> rw [hg] at h <;>
              try exact Except.noConfusion h
            rename_i n
            simp only [] at h
            injection h with h
            injection h with h5 h
            injection h with h6 h7
            subst h7
            rw [← h5]
            exact ⟨by simp only [List.length_cons]; omega, by trivial, by trivial,
              Nat.le_succ _⟩
        · rw [if_neg h2] at h
          by_cases h4 : '0' ≤ c2 ∧ c2 ≤ '9'
          · rw [if_pos h4] at h
            cases ht : takeDigits 0 (c2 :: l2) with
            | error e => rw [ht] at h; exact absurd h (by simp [Except.map])
            | ok v =>
              obtain ⟨n, r⟩ := v
              rw [ht] at h
              simp only [Except.map] at h
              injection h with h
              injection h with h5 h
              injection h with h6 h7
              subst h7
              rw [← h5]
              have := takeDigits_length _ _ _ _ ht
              refine ⟨?_, by trivial, by trivial, Nat.le_refl _⟩
              simp only [List.length_cons] at this ⊢
              omega
          · rw [if_neg h4] at h
            injection h with h
            injection h with h5 h
            injection h with h6 h7
            subst h7
            rw [← h5]
            exact ⟨by simp, rfl, rfl, Nat.le_refl _⟩
    · rw [if_neg h1] at h
      injection h with h
      injection h with h5 h
      injection h with h6 h7
      subst h7
      rw [← h5]
      exact ⟨Nat.le_refl _, rfl, rfl, Nat.le_refl _⟩

theorem nextArg_spec (st : LoopState) (st' : LoopState) (arg : PyVal)
    (h : nextArg st = .ok (st', arg)) :
    st'.args_dict = st.args_dict ∧ st'.args_tuple = st.args_tuple ∧
    st.arg_idx ≤ st'.arg_idx := by
  unfold nextArg at h
  by_cases h1 : st.args_tuple.length ≤ st.arg_idx
  · rw [if_pos h1] at h
    exact absurd h (by simp)
  · rw [if_neg h1] at h
    injection h with h
    injection h with h2 h3
    rw [← h2]
    exact ⟨rfl, rfl, Nat.le_succ _⟩

theorem dispatch_spec (fl : Flavor) (total_len flags : Nat) (positive_sign : List Char)
    (use_alt_formatting : Bool) (width precision : Int) (arg : PyVal)
    (st : LoopState) (c : Char) (l : List Char) (st' : LoopState) (rest' : List Char)
    (h : dispatch fl total_len flags positive_sign use_alt_formatting width precision
      arg st c l = .ok (st', rest')) :
    rest' = l ∧ st'.args_dict = st.args_dict ∧ st'.args_tuple = st.args_tuple ∧
    st'.arg_idx = st.arg_idx := by
  unfold dispatch at h
  cases hdr : dispatchResult fl total_len flags positive_sign use_alt_formatting
      width precision arg st.result c l with
  | error e => rw [hdr] at h; exact absurd h (by simp [Except.map])
  | ok res =>
    rw [hdr] at h
    simp only [Except.map, Except.ok.injEq, Prod.mk.injEq] at h
    obtain ⟨h1, h2⟩ := h
    subst h2
    rw [← h1]
    exact ⟨rfl, rfl, rfl, rfl⟩

theorem processDirective_spec (fl : Flavor) (args : PyVal) (total_len : Nat)
    (st : LoopState) (l : List Char) (st' : LoopState) (rest' : List Char)
    (h : processDirective fl args total_len st l = .ok (st', rest')) :
    rest'.length < l.length ∧
    (∀ d, st.args_dict = some d → st'.args_dict = some d) ∧
    (st'.args_dict = none → st.args_dict = none ∧ st.arg_idx ≤ st'.arg_idx) := by
  cases l with
  | nil => exact absurd h (by simp [processDirective])
  | cons c l1 =>
    rw [processDirective.eq_def] at h
    simp only [] at h
    split_ifs at h with h1
    · injection h with h
      injection h with h2 h3
      subst h3
      rw [← h2]
      exact ⟨by simp, fun d hd => hd, fun hn => ⟨hn, Nat.le_refl _⟩⟩
    · cases hn : handleNamed fl args st (c :: l1) with
      | error e => rw [hn] at h; exact absurd h (by simp [Bind.bind, Except.bind])
      | ok v1 =>
        obtain ⟨st1, la⟩ := v1
        rw [hn] at h
        simp only [Bind.bind, Except.bind] at h
        obtain ⟨hna, hnb, hnc⟩ := handleNamed_spec _ _ _ _ _ _ hn
        cases hf : parseFlags 0 [] false la with
        | error e => rw [hf] at h; exact absurd h (by simp)
        | ok v2 =>
          obtain ⟨flags, ps, alt, lb⟩ := v2
          rw [hf] at h
          simp only [] at h
          have hfl := parseFlags_length _ _ _ _ _ _ _ _ hf
          cases hw : parseWidth st1 flags lb with
          | error e => rw [hw] at h; exact absurd h (by simp)
          | ok v3 =>
            obtain ⟨st2, flags2, width, lc⟩ := v3
            rw [hw] at h
            simp only [] at h
            obtain ⟨hwa, hwb, hwc, hwd⟩ := parseWidth_spec _ _ _ _ _ _ _ hw
            cases hp : parsePrecision st2 lc with
            | error e => rw [hp] at h; exact absurd h (by simp)
            | ok v4 =>
              obtain ⟨st3, precision, ld⟩ := v4
              rw [hp] at h
              simp only [] at h
              obtain ⟨hpa, hpb, hpc, hpd⟩ := parsePrecision_spec _ _ _ _ _ hp
              cases ld with
              | nil => exact absurd h (by simp)
              | cons c2 le =>
                simp only [] at h
                cases ha : nextArg st3 with
                | error e => rw [ha] at h; exact absurd h (by simp)
                | ok v5 =>
                  obtain ⟨st4, arg⟩ := v5
                  rw [ha] at h
                  simp only [] at h
                  obtain ⟨haa, hab, hac⟩ := nextArg_spec _ _ _ ha
                  obtain ⟨hda, hdb, hdc, hdd⟩ := dispatch_spec _ _ _ _ _ _ _ _ _ _ _ _ _ h
                  subst hda
                  refine ⟨?_, ?_, ?_⟩
                  · simp only [List.length_cons] at hpa hfl hna hwa ⊢
                    omega
                  · intro d hd
                    rw [hdb, haa, hpb, hwb]
                    exact hnb d hd
                  · intro hnone
                    rw [hdb, haa, hpb, hwb] at hnone
                    have hst1 := hnc hnone
                    subst hst1
                    rw [hnone]
                    refine ⟨rfl, ?_⟩
                    rw [hdd]
                    omega

/-! ## Loop-level lemmas -/

/-- Fuel `template.length + 1` always suffices: every loop iteration
consumes at least one template character, so the out-of-fuel sentinel is
unreachable. -/
theorem formatLoop_ne_none (fl : Flavor) (args : PyVal) (tl : Nat) :
    ∀ (fuel : Nat) (st : LoopState) (l : List Char), l.length < fuel →
    formatLoop fl args tl fuel st l ≠ none := by
  intro fuel
  induction fuel with
  | zero => intro st l h; omega
  | succ n ih =>
    intro st l hlen
    rw [formatLoop_of_pos fl args tl _ (Nat.succ_ne_zero n) st l]
    cases hsp : splitAtPercent l with
    | mk pre r =>
      cases r with
      | none => simp
      | some rest =>
        simp only []
        cases hpd : processDirective fl args tl { st with result := st.result ++ pre }
            rest with
        | error e => simp
        | ok v =>
          obtain ⟨st', rest'⟩ := v
          simp only [Nat.add_sub_cancel]
          apply ih
          have h1 := (processDirective_spec _ _ _ _ _ _ _ hpd).1
          have h2 := splitAtPercent_some l pre rest hsp
          subst h2
          simp only [List.length_append, List.length_cons] at hlen ⊢
          omega

theorem handleNamed_args_irrel (fl : Flavor) (a1 a2 : PyVal) (st : LoopState)
    (l : List Char) (d : List (PyVal × PyVal)) (hd : st.args_dict = some d) :
    handleNamed fl a1 st l = handleNamed fl a2 st l := by
  cases l with
  | nil => rfl
  | cons c l1 =>
    rw [handleNamed.eq_def, handleNamed.eq_def]
    simp only [hd]

theorem processDirective_args_irrel (fl : Flavor) (a1 a2 : PyVal) (tl : Nat)
    (st : LoopState) (l : List Char) (d : List (PyVal × PyVal))
    (hd : st.args_dict = some d) :
    processDirective fl a1 tl st l = processDirective fl a2 tl st l := by
  cases l with
  | nil => rfl
  | cons c l1 =>
    rw [processDirective.eq_def, processDirective.eq_def]
    simp only []
    by_cases hc : c = '%'
    · rw [if_pos hc, if_pos hc]
    · rw [if_neg hc, if_neg hc, handleNamed_args_irrel fl a1 a2 st (c :: l1) d hd]

/-- Once mapping mode is active, the loop's behavior does not depend on
the raw argument value at all. -/
theorem formatLoop_args_irrel (fl : Flavor) (a1 a2 : PyVal) (tl : Nat) :
    ∀ (fuel : Nat) (st : LoopState) (l : List Char) (d : List (PyVal × PyVal)),
    st.args_dict = some d →
    formatLoop fl a1 tl fuel st l = formatLoop fl a2 tl fuel st l := by
  intro fuel
  induction fuel with
  | zero => intro st l d hd; rfl
  | succ n ih =>
    intro st l d hd
    rw [formatLoop_of_pos fl a1 tl _ (Nat.succ_ne_zero n),
      formatLoop_of_pos fl a2 tl _ (Nat.succ_ne_zero n)]
    cases hsp : splitAtPercent l with
    | mk pre r =>
      cases r with
      | none => rfl
      | some rest =>
        simp only []
        rw [processDirective_args_irrel fl a1 a2 tl
          { st with result := st.result ++ pre } rest d hd]
        cases hpd : processDirective fl a2 tl { st with result := st.result ++ pre }
            rest with
        | error e => rfl
        | ok v =>
          obtain ⟨st', rest'⟩ := v
          simp only []
          exact ih st' rest' d ((processDirective_spec _ _ _ _ _ _ _ hpd).2.1 d hd)

/-- Mapping mode is permanent across the loop, and positional consumption
is monotonic while the call stays in positional mode. -/
theorem formatLoop_dict_mono (fl : Flavor) (args : PyVal) (tl : Nat) :
    ∀ (fuel : Nat) (st : LoopState) (l : List Char) (st' : LoopState),
    formatLoop fl args tl fuel st l = some (.ok st') →
    (∀ d, st.args_dict = some d → st'.args_dict = some d) ∧
    (st'.args_dict = none → st.args_dict = none ∧ st.arg_idx ≤ st'.arg_idx) := by
  intro fuel
  induction fuel with
  | zero => intro st l st' h; exact absurd h (by simp [formatLoop])
  | succ n ih =>
    intro st l st' h
    rw [formatLoop_of_pos fl args tl _ (Nat.succ_ne_zero n)] at h
    cases hsp : splitAtPercent l with
    | mk pre r =>
      rw [hsp] at h
      cases r with
      | none =>
        simp only [] at h
        injection h with h
        injection h with h
        rw [← h]
        exact ⟨fun d hd => hd, fun hn => ⟨hn, Nat.le_refl _⟩⟩
      | some rest =>
        simp only [] at h
        cases hpd : processDirective fl args tl { st with result := st.result ++ pre }
            rest with
        | error e => rw [hpd] at h; exact absurd h (by simp)
        | ok v =>
          obtain ⟨st1, rest1⟩ := v
          rw [hpd] at h
          simp only [Nat.add_sub_cancel] at h
          obtain ⟨ihd, ihn⟩ := ih st1 rest1 st' h
          obtain ⟨-, hpd2, hpd3⟩ := processDirective_spec _ _ _ _ _ _ _ hpd
          refine ⟨fun d hd => ihd d (hpd2 d hd), fun hn => ?_⟩
          obtain ⟨h1, h2⟩ := ihn hn
          obtain ⟨h3, h4⟩ := hpd3 h1
          exact ⟨h3, le_trans h4 h2⟩

/-! ## Claim C7 -/

/-- C7: (i) once mapping mode is entered (`args_dict` set), the loop's
result does not depend on the original positional tuple at all — the
original tuple is never consulted again by any later directive; (ii)
mapping mode never reverts to positional mode; (iii) while the call stays
in positional mode, positional consumption is monotonic (the next-argument
index never decreases). -/
theorem claim_C7_mapping_mode :
    (∀ (fl : Flavor) (tl fuel : Nat) (st : LoopState) (l : List Char)
        (T1 T2 : List PyVal) (d : List (PyVal × PyVal)),
      st.args_dict = some d →
      formatLoop fl (.tuple T1) tl fuel st l =
        formatLoop fl (.tuple T2) tl fuel st l) ∧
    (∀ (fl : Flavor) (args : PyVal) (tl fuel : Nat) (st : LoopState) (l : List Char)
        (st' : LoopState) (d : List (PyVal × PyVal)),
      formatLoop fl args tl fuel st l = some (.ok st') →
      st.args_dict = some d → st'.args_dict = some d) ∧
    (∀ (fl : Flavor) (args : PyVal) (tl fuel : Nat) (st : LoopState) (l : List Char)
        (st' : LoopState),
      formatLoop fl args tl fuel st l = some (.ok st') →
      st'.args_dict = none → st.args_dict = none ∧ st.arg_idx ≤ st'.arg_idx) :=
  ⟨fun fl tl fuel st l T1 T2 d hd => formatLoop_args_irrel fl (.tuple T1) (.tuple T2)
     tl fuel st l d hd,
   fun fl args tl fuel st l st' d h hd =>
     (formatLoop_dict_mono fl args tl fuel st l st' h).1 d hd,
   fun fl args tl fuel st l st' h hn =>
     (formatLoop_dict_mono fl args tl fuel st l st' h).2 hn⟩

/-- Witness for C7 at concrete inputs: a mapping-mode state gives the same
run for two different original tuples, mapping mode persists across a run,
and a positional run only increases the argument index. -/
theorem claim_C7_witness :
    (formatLoop .text (.tuple [.int 1]) 2 3 ⟨[.int 7], 0, some [], []⟩ "%d".toList =
      formatLoop .text (.tuple [.str ['x']]) 2 3 ⟨[.int 7], 0, some [], []⟩
        "%d".toList) ∧
    (⟨[.int 7], 1, some [], ['7']⟩ : LoopState).args_dict = some [] ∧
    ((⟨[.int 7], 0, none, []⟩ : LoopState).args_dict = none ∧
      (⟨[.int 7], 0, none, []⟩ : LoopState).arg_idx ≤
        (⟨[.int 7], 1, none, ['7']⟩ : LoopState).arg_idx) :=
  ⟨claim_C7_mapping_mode.1 .text 2 3 ⟨[.int 7], 0, some [], []⟩ "%d".toList
      [.int 1] [.str ['x']] [] rfl,
   claim_C7_mapping_mode.2.1 .text (.tuple [.int 1]) 2 3 ⟨[.int 7], 0, some [], []⟩
      "%d".toList ⟨[.int 7], 1, some [], ['7']⟩ [] rfl rfl,
   claim_C7_mapping_mode.2.2 .text (.tuple [.int 7]) 2 3 ⟨[.int 7], 0, none, []⟩
      "%d".toList ⟨[.int 7], 1, none, ['7']⟩ rfl rfl⟩

/-! ## Claim C9 -/

/-- C9: the scan always terminates — (i) with fuel exceeding the template
length the loop never runs out (every iteration advances the cursor by at
least one code unit); (ii) each successfully processed directive strictly
consumes template characters; (iii) a template that ends mid-directive
(here: right after a `%`) fails with the incomplete-format error, both at
the directive level and through a full `format` call. -/
theorem claim_C9_termination :
    (∀ (fl : Flavor) (args : PyVal) (tl fuel : Nat) (st : LoopState) (l : List Char),
      l.length < fuel → formatLoop fl args tl fuel st l ≠ none) ∧
    (∀ (fl : Flavor) (args : PyVal) (tl : Nat) (st st' : LoopState)
        (l rest' : List Char),
      processDirective fl args tl st l = .ok (st', rest') →
        rest'.length < l.length) ∧
    (∀ (fl : Flavor) (args : PyVal) (tl : Nat) (st : LoopState),
      processDirective fl args tl st [] = .error (.valueError "incomplete format")) ∧
    (∀ (s : List Char) (args : PyVal), '%' ∉ s →
      str_format (.str (s ++ ['%'])) args =
        .error (.valueError "incomplete format")) := by
  refine ⟨fun fl args tl fuel st l h => formatLoop_ne_none fl args tl fuel st l h,
    fun fl args tl st st' l rest' h => (processDirective_spec _ _ _ _ _ _ _ h).1,
    fun fl args tl st => rfl, ?_⟩
  intro s args hs
  show format .text (.str (s ++ ['%'])) args = _
  unfold format
  simp only [as_str, pyStr]
  rw [formatLoop_of_pos _ _ _ _ (Nat.succ_ne_zero _) _ _]
  rw [show s ++ ['%'] = s ++ '%' :: [] from rfl, splitAtPercent_append s [] hs]
  rfl

/-- Witness for C9 at concrete inputs. -/
theorem claim_C9_witness :
    formatLoop .text (.tuple []) 1 2 ⟨[], 0, none, []⟩ ['a'] ≠ none ∧
    str_format (.str ("abc".toList ++ ['%'])) (.tuple []) =
      .error (.valueError "incomplete format") :=
  ⟨claim_C9_termination.1 .text (.tuple []) 1 2 ⟨[], 0, none, []⟩ ['a'] (by decide),
   claim_C9_termination.2.2.2 "abc".toList (.tuple []) (by decide)⟩

/-! ## Claim C10 lemmas: no error raised inside the scanning loop is the
excess-arguments error -/

/-- The excess-arguments (`not all arguments converted`) errors of the two
flavors. -/
def isNotAllErr (e : PyErr) : Prop :=
  e = not_all_arguments_converted .text ∨ e = not_all_arguments_converted .binary

theorem notAll_head (fl : Flavor) :
    (("not all arguments converted during " ++ CATEGORY fl ++ " formatting") :
      String).data.head? = some 'n' := by
  cases fl <;> rfl

theorem typeError_ne_notAll {msg : String} (h : msg.data.head? ≠ some 'n') :
    ¬ isNotAllErr (.typeError msg) := by
  rintro (he | he) <;>
    (unfold not_all_arguments_converted at he
     injection he with he
     apply h
     rw [he]
     first
       | exact notAll_head .text
       | exact notAll_head .binary)

theorem valueError_ne_notAll (msg : String) : ¬ isNotAllErr (.valueError msg) := by
  rintro (he | he) <;> exact PyErr.noConfusion he

theorem overflowError_ne_notAll (msg : String) : ¬ isNotAllErr (.overflowError msg) := by
  rintro (he | he) <;> exact PyErr.noConfusion he

theorem keyError_ne_notAll (k : String) : ¬ isNotAllErr (.keyError k) := by
  rintro (he | he) <;> exact PyErr.noConfusion he

theorem ne_n_of_head_eq {msg : String} {c : Char} (hc : msg.data.head? = some c)
    (h : c ≠ 'n') : msg.data.head? ≠ some 'n' := by
  rw [hc]
  intro he
  injection he with he
  exact h he

theorem notEnough_ne_notAll :
    ¬ isNotAllErr (.typeError "not enough arguments for format string") := by
  unfold isNotAllErr
  decide

theorem starWantsInt_ne_notAll : ¬ isNotAllErr (.typeError "* wants int") := by
  unfold isNotAllErr
  decide

theorem requiresMapping_ne_notAll :
    ¬ isNotAllErr (.typeError "format requires a mapping") := by
  unfold isNotAllErr
  decide

theorem takeDigits_error : ∀ (l : List Char) (acc : Nat) (e : PyErr),
    takeDigits acc l = .error e → e = .valueError "incomplete format" := by
  intro l
  induction l with
  | nil => intro acc e h; injection h with h; exact h.symm
  | cons c t ih =>
    intro acc e h
    rw [takeDigits.eq_def] at h
    simp only [] at h
    split_ifs at h with h1
    all_goals exact ih _ _ h

theorem parseFlags_error : ∀ (l : List Char) (flags : Nat) (ps : List Char) (alt : Bool)
    (e : PyErr), parseFlags flags ps alt l = .error e →
    e = .valueError "incomplete format" := by
  intro l
  induction l with
  | nil => intro flags ps alt e h; injection h with h; exact h.symm
  | cons c t ih =>
    intro flags ps alt e h
    rw [parseFlags.eq_def] at h
    simp only [] at h
    split_ifs at h <;> first
      | exact ih _ _ _ _ h
      | exact absurd h (by simp)

theorem handleNamedLookup_error (fl : Flavor) (d : List (PyVal × PyVal))
    (st : LoopState) (l1 : List Char) (e : PyErr)
    (h : handleNamedLookup fl d st l1 = .error e) : ¬ isNotAllErr e := by
  unfold handleNamedLookup at h
  cases hk : scanKey 1 [] l1 with
  | none =>
    rw [hk] at h
    injection h with h
    rw [← h]
    exact valueError_ne_notAll _
  | some kv =>
    obtain ⟨key, l2⟩ := kv
    rw [hk] at h
    simp only [] at h
    cases hl : dictLookup d (cast fl key) with
    | none =>
      rw [hl] at h
      injection h with h
      rw [← h]
      exact keyError_ne_notAll _
    | some v =>
      rw [hl] at h
      exact absurd h (by simp)

theorem handleNamed_error (fl : Flavor) (args : PyVal) (st : LoopState) (l : List Char)
    (e : PyErr) (h : handleNamed fl args st l = .error e) : ¬ isNotAllErr e := by
  cases l with
  | nil => exact absurd h (by simp [handleNamed])
  | cons c l1 =>
    rw [handleNamed.eq_def] at h
    simp only [] at h
    by_cases h1 : c = '('
    · rw [if_pos h1] at h
      cases hd : st.args_dict with
      | some d =>
        rw [hd] at h
        simp only [] at h
        exact handleNamedLookup_error _ _ _ _ _ h
      | none =>
        rw [hd] at h
        simp only [] at h
        by_cases h2 : (_tuple_check args || _str_check args || !_mapping_check args) = true
        · rw [if_pos h2] at h
          injection h with h
          rw [← h]
          exact requiresMapping_ne_notAll
        · rw [if_neg h2] at h
          cases args <;> try exact handleNamedLookup_error _ _ _ _ _ h
          all_goals
            (injection h with h
             rw [← h]
             exact requiresMapping_ne_notAll)
    · rw [if_neg h1] at h
      exact absurd h (by simp)

theorem parseWidth_error (st : LoopState) (flags : Nat) (l : List Char) (e : PyErr)
    (h : parseWidth st flags l = .error e) : ¬ isNotAllErr e := by
  cases l with
  | nil =>
    unfold parseWidth at h
    injection h with h
    rw [← h]
    exact valueError_ne_notAll _
  | cons c l1 =>
    rw [parseWidth.eq_def] at h
    simp only [] at h
    by_cases h1 : c = '*'
    · rw [if_pos h1] at h
      by_cases h2 : st.args_tuple.length ≤ st.arg_idx
      · rw [if_pos h2] at h
        injection h with h
        rw [← h]
        exact notEnough_ne_notAll
      · rw [if_neg h2] at h
        cases hg : st.args_tuple.getD st.arg_idx (.int 0) <;> rw [hg] at h <;>
          simp only [] at h <;>
          try (injection h with h
               rw [← h]
               exact starWantsInt_ne_notAll)
        split_ifs at h <;> exact absurd h (by simp)
    · rw [if_neg h1] at h
      by_cases h3 : '0' ≤ c ∧ c ≤ '9'
      · rw [if_pos h3] at h
        cases ht : takeDigits 0 (c :: l1) with
        | error e2 =>
          rw [ht] at h
          simp only [Except.map] at h
          injection h with h
          rw [← h, takeDigits_error _ _ _ ht]
          exact valueError_ne_notAll _
        | ok v => rw [ht] at h; exact absurd h (by simp [Except.map])
      · rw [if_neg h3] at h
        exact absurd h (by simp)

theorem parsePrecision_error (st : LoopState) (l : List Char) (e : PyErr)
    (h : parsePrecision st l = .error e) : ¬ isNotAllErr e := by
  cases l with
  | nil =>
    unfold parsePrecision at h
    injection h with h
    rw [← h]
    exact valueError_ne_notAll _
  | cons c l1 =>
    rw [parsePrecision.eq_def] at h
    simp only [] at h
    by_cases h1 : c = '.'
    · rw [if_pos h1] at h
      cases l1 with
      | nil =>
        injection h with h
        rw [← h]
        exact valueError_ne_notAll _
      | cons c2 l2 =>
        simp only [] at h
        by_cases h2 : c2 = '*'
        · rw [if_pos h2] at h
          by_cases h3 : st.args_tuple.length ≤ st.arg_idx
          · rw [if_pos h3] at h
            injection h with h
            rw [← h]
            exact notEnough_ne_notAll
          · rw [if_neg h3] at h
            cases hg : st.args_tuple.getD st.arg_idx (.int 0) <;> rw [hg] at h <;>
              simp only [] at h <;>
              try (injection h with h
                   rw [← h]
                   exact starWantsInt_ne_notAll)
            exact absurd h (by simp)
        · rw [if_neg h2] at h
          by_cases h4 : '0' ≤ c2 ∧ c2 ≤ '9'
          · rw [if_pos h4] at h
            cases ht : takeDigits 0 (c2 :: l2) with
            | error e2 =>
              rw [ht] at h
              simp only [Except.map] at h
              injection h with h
              rw [← h, takeDigits_error _ _ _ ht]
              exact valueError_ne_notAll _
            | ok v => rw [ht] at h; exact absurd h (by simp [Except.map])
          · rw [if_neg h4] at h
            exact absurd h (by simp)
    · rw [if_neg h1] at h
      exact absurd h (by simp)

theorem nextArg_error (st : LoopState) (e : PyErr)
    (h : nextArg st = .error e) : ¬ isNotAllErr e := by
  unfold nextArg at h
  by_cases h1 : st.args_tuple.length ≤ st.arg_idx
  · rw [if_pos h1] at h
    injection h with h
    rw [← h]
    exact notEnough_ne_notAll
  · rw [if_neg h1] at h
    exact absurd h (by simp)

theorem utf8Decode_error : ∀ (n : Nat) (b : List Nat), b.length ≤ n → ∀ (e : PyErr),
    utf8Decode b = .error e → e = .valueError "invalid utf-8" := by
  intro n
  induction n with
  | zero =>
    intro b hb e h
    cases b with
    | nil => exact absurd h (by simp [utf8Decode])
    | cons x t => simp at hb
  | succ n ih =>
    intro b hb e h
    cases b with
    | nil => exact absurd h (by simp [utf8Decode])
    | cons x rest =>
      simp only [List.length_cons] at hb
      rw [utf8Decode.eq_def] at h
      simp only [] at h
      split_ifs at h with h1 h2 h3 h4 h5
      · cases hu : utf8Decode rest with
        | error e2 =>
          rw [hu] at h
          simp only [Except.map] at h
          injection h with h
          rw [← h]
          exact ih rest (by omega) e2 hu
        | ok v => rw [hu] at h; exact absurd h (by simp [Except.map])
      · injection h with h; exact h.symm
      · cases rest with
        | nil => injection h with h; exact h.symm
        | cons b2 rest2 =>
          simp only [List.length_cons] at hb
          simp only [] at h
          split_ifs at h with hc
          · cases hu : utf8Decode rest2 with
        | error e2 =>
          rw [hu] at h
          simp only [Except.map] at h
          injection h with h
          rw [← h]
          exact ih rest2 (by omega) e2 hu
        | ok v => rw [hu] at h; exact absurd h (by simp [Except.map])
          · injection h with h; exact h.symm
      · cases rest with
        | nil => injection h with h; exact h.symm
        | cons b2 rest2 =>
          simp only [List.length_cons] at hb
          simp only [] at h
          cases rest2 with
          | nil => injection h with h; exact h.symm
          | cons b3 rest3 =>
            simp only [List.length_cons] at hb
            simp only [] at h
            split_ifs at h with hc hv
            · cases hu : utf8Decode rest3 with
        | error e2 =>
          rw [hu] at h
          simp only [Except.map] at h
          injection h with h
          rw [← h]
          exact ih rest3 (by omega) e2 hu
        | ok v => rw [hu] at h; exact absurd h (by simp [Except.map])
            · injection h with h; exact h.symm
            · injection h with h; exact h.symm
      · cases rest with
        | nil => injection h with h; exact h.symm
        | cons b2 rest2 =>
          simp only [List.length_cons] at hb
          simp only [] at h
          cases rest2 with
          | nil => injection h with h; exact h.symm
          | cons b3 rest3 =>
            simp only [List.length_cons] at hb
            simp only [] at h
            cases rest3 with
            | nil => injection h with h; exact h.symm
            | cons b4 rest4 =>
              simp only [List.length_cons] at hb
              simp only [] at h
              split_ifs at h with hc hv
              · cases hu : utf8Decode rest4 with
        | error e2 =>
          rw [hu] at h
          simp only [Except.map] at h
          injection h with h
          rw [← h]
          exact ih rest4 (by omega) e2 hu
        | ok v => rw [hu] at h; exact absurd h (by simp [Except.map])
              · injection h with h; exact h.symm
              · injection h with h; exact h.symm
      · split at h <;> try split at h <;> try split at h
        all_goals (injection h with h; exact h.symm)

theorem _float_error (v : PyVal) (e : PyErr) (h : _float v = .error e) :
    ¬ isNotAllErr e := by
  have hmsg : ∀ msg : String, msg.data.head? = some 'm' →
      ¬ isNotAllErr (.typeError msg) := fun msg hm =>
    typeError_ne_notAll (ne_n_of_head_eq hm (by decide))
  cases v with
  | int n => exact absurd h (by simp [_float])
  | float f => exact absurd h (by simp [_float])
  | str s =>
    simp only [_float] at h
    injection h with h
    rw [← h]
    exact hmsg _ rfl
  | bytes b =>
    simp only [_float] at h
    injection h with h
    rw [← h]
    exact hmsg _ rfl
  | tuple t =>
    simp only [_float] at h
    injection h with h
    rw [← h]
    exact hmsg _ rfl
  | dict d =>
    simp only [_float] at h
    injection h with h
    rw [← h]
    exact hmsg _ rfl

theorem as_str_error (fl : Flavor) (v : PyVal) (e : PyErr)
    (h : as_str fl v = .error e) : ¬ isNotAllErr e := by
  cases fl with
  | text => exact absurd h (by simp [as_str])
  | binary =>
    cases v <;> simp only [as_str] at h <;>
      first
        | (rw [utf8Decode_error _ _ (Nat.le_refl _) _ h]
           exact valueError_ne_notAll _)
        | (split at h
           · rw [utf8Decode_error _ _ (Nat.le_refl _) _ h]
             exact valueError_ne_notAll _
           · injection h with h
             rw [← h]
             exact typeError_ne_notAll (ne_n_of_head_eq (c := '%') rfl (by decide)))

theorem percent_c_req_ne (fl : Flavor) :
    ¬ isNotAllErr (percent_c_requires_int_or_char fl) := by
  cases fl <;>
    (unfold isNotAllErr percent_c_requires_int_or_char
     decide)

theorem percent_c_range_ne (fl : Flavor) :
    ¬ isNotAllErr (percent_c_not_in_range fl) := by
  cases fl <;> exact overflowError_ne_notAll _

theorem percent_d_ne (fl : Flavor) (c : Char) (t : String) :
    ¬ isNotAllErr (percent_d_a_number_is_required fl c t) := by
  cases fl <;> exact typeError_ne_notAll (ne_n_of_head_eq (c := '%') rfl (by decide))

theorem percent_x_ne (c : Char) (t : String) :
    ¬ isNotAllErr (.typeError ("%" ++ String.singleton c ++
      " format: an integer is required, not " ++ t)) :=
  typeError_ne_notAll (ne_n_of_head_eq (c := '%') rfl (by decide))

theorem percent_o_ne (t : String) :
    ¬ isNotAllErr (.typeError ("%o format: an integer is required, not " ++ t)) :=
  typeError_ne_notAll (ne_n_of_head_eq (c := '%') rfl (by decide))

theorem dispatchResult_error (fl : Flavor) (total_len flags : Nat)
    (positive_sign : List Char) (use_alt_formatting : Bool) (width precision : Int)
    (arg : PyVal) (result : List Char) (c : Char) (l : List Char) (e : PyErr)
    (h : dispatchResult fl total_len flags positive_sign use_alt_formatting width
      precision arg result c l = .error e) : ¬ isNotAllErr e := by
  unfold dispatchResult at h
  by_cases hs : c = 's'
  · rw [if_pos hs] at h
    cases ha : as_str fl arg with
    | error e2 =>
      rw [ha] at h
      simp only [Except.map] at h
      injection h with h
      rw [← h]
      exact as_str_error _ _ _ ha
    | ok v =>
      rw [ha] at h
      simp only [Except.map] at h
      exact Except.noConfusion h
  · rw [if_neg hs] at h
    by_cases hr : c = 'r'
    · rw [if_pos hr] at h
      exact Except.noConfusion h
    · rw [if_neg hr] at h
      by_cases ha2 : c = 'a'
      · rw [if_pos ha2] at h
        exact Except.noConfusion h
      · rw [if_neg ha2] at h
        by_cases hcc : c = 'c'
        · rw [if_pos hcc] at h
          cases arg <;> (try simp only [] at h) <;>
            first
              | (split_ifs at h with hl1
                 all_goals
                   first
                     | exact Except.noConfusion h
                     | (injection h with h
                        rw [← h]
                        exact percent_c_req_ne fl))
              | (split at h
                 · injection h with h
                   rw [← h]
                   exact percent_c_req_ne fl
                 · split_ifs at h with hrange
                   all_goals
                     first
                       | exact Except.noConfusion h
                       | (injection h with h
                          rw [← h]
                          exact percent_c_range_ne fl))
        · rw [if_neg hcc] at h
          by_cases hd : c = 'd' ∨ c = 'i' ∨ c = 'u'
          · rw [if_pos hd] at h
            by_cases hn : (!(_number_check arg)) = true
            · rw [if_pos hn] at h
              injection h with h
              rw [← h]
              exact percent_d_ne fl c (typeName arg)
            · rw [if_neg hn] at h
              simp only [] at h
              by_cases hv : pyIntOf arg < 0
              · rw [if_pos hv] at h
                exact Except.noConfusion h
              · rw [if_neg hv] at h
                exact Except.noConfusion h
          · rw [if_neg hd] at h
            by_cases hx : c = 'x'
            · rw [if_pos hx] at h
              by_cases hn : (!(_number_check arg)) = true
              · rw [if_pos hn] at h
                simp only [] at h
                injection h with h
                rw [← h]
                exact percent_x_ne c (typeName arg)
              · rw [if_neg hn] at h
                cases hi : _index arg with
                | error e2 =>
                  rw [hi] at h
                  simp only [Except.mapError] at h
                  injection h with h
                  rw [← h]
                  exact percent_x_ne c (typeName arg)
                | ok v =>
                  rw [hi] at h
                  simp only [Except.mapError] at h
                  by_cases hv : v < 0
                  · rw [if_pos hv] at h
                    exact Except.noConfusion h
                  · rw [if_neg hv] at h
                    exact Except.noConfusion h
            · rw [if_neg hx] at h
              by_cases hX : c = 'X'
              · rw [if_pos hX] at h
                by_cases hn : (!(_number_check arg)) = true
                · rw [if_pos hn] at h
                  simp only [] at h
                  injection h with h
                  rw [← h]
                  exact percent_x_ne c (typeName arg)
                · rw [if_neg hn] at h
                  cases hi : _index arg with
                  | error e2 =>
                    rw [hi] at h
                    simp only [Except.mapError] at h
                    injection h with h
                    rw [← h]
                    exact percent_x_ne c (typeName arg)
                  | ok v =>
                    rw [hi] at h
                    simp only [Except.mapError] at h
                    by_cases hv : v < 0
                    · rw [if_pos hv] at h
                      exact Except.noConfusion h
                    · rw [if_neg hv] at h
                      exact Except.noConfusion h
              · rw [if_neg hX] at h
                by_cases ho : c = 'o'
                · rw [if_pos ho] at h
                  by_cases hn : (!(_number_check arg)) = true
                  · rw [if_pos hn] at h
                    simp only [] at h
                    injection h with h
                    rw [← h]
                    exact percent_o_ne (typeName arg)
                  · rw [if_neg hn] at h
                    cases hi : _index arg with
                    | error e2 =>
                      rw [hi] at h
                      simp only [Except.mapError] at h
                      injection h with h
                      rw [← h]
                      exact percent_o_ne (typeName arg)
                    | ok v =>
                      rw [hi] at h
                      simp only [Except.mapError] at h
                      by_cases hv : v < 0
                      · rw [if_pos hv] at h
                        exact Except.noConfusion h
                      · rw [if_neg hv] at h
                        exact Except.noConfusion h
                · rw [if_neg ho] at h
                  by_cases hf : c = 'e' ∨ c = 'E' ∨ c = 'f' ∨ c = 'F' ∨ c = 'g' ∨ c = 'G'
                  · rw [if_pos hf] at h
                    cases hfv : _float arg with
                    | error fe =>
                      rw [hfv] at h
                      simp only [] at h
                      injection h with h
                      rw [← h]
                      cases fl with
                      | text => exact _float_error arg fe hfv
                      | binary =>
                        exact typeError_ne_notAll
                          (ne_n_of_head_eq (c := 'f') rfl (by decide))
                    | ok fv =>
                      rw [hfv] at h
                      simp only [] at h
                      exact Except.noConfusion h
                  · rw [if_neg hf] at h
                    injection h with h
                    rw [← h]
                    exact valueError_ne_notAll _

theorem dispatch_error (fl : Flavor) (total_len flags : Nat)
    (positive_sign : List Char) (use_alt_formatting : Bool) (width precision : Int)
    (arg : PyVal) (st : LoopState) (c : Char) (l : List Char) (e : PyErr)
    (h : dispatch fl total_len flags positive_sign use_alt_formatting width
      precision arg st c l = .error e) : ¬ isNotAllErr e := by
  unfold dispatch at h
  cases hdr : dispatchResult fl total_len flags positive_sign use_alt_formatting
      width precision arg st.result c l with
  | error e2 =>
    rw [hdr] at h
    simp only [Except.map] at h
    injection h with h
    rw [← h]
    exact dispatchResult_error _ _ _ _ _ _ _ _ _ _ _ _ hdr
  | ok res =>
    rw [hdr] at h
    simp only [Except.map] at h
    exact Except.noConfusion h

/-- Every error produced while processing a directive is distinct from the
excess-arguments error: the latter is only constructed by the end-of-scan
check in `format`. -/
theorem processDirective_error (fl : Flavor) (args : PyVal) (total_len : Nat)
    (st : LoopState) (l : List Char) (e : PyErr)
    (h : processDirective fl args total_len st l = .error e) : ¬ isNotAllErr e := by
  cases l with
  | nil =>
    have hpn : processDirective fl args total_len st [] =
        .error (.valueError "incomplete format") := rfl
    rw [hpn] at h
    injection h with h
    rw [← h]
    exact valueError_ne_notAll _
  | cons c l1 =>
    rw [processDirective.eq_def] at h
    simp only [] at h
    split_ifs at h with h1
    cases hn : handleNamed fl args st (c :: l1) with
    | error e2 =>
      rw [hn] at h
      simp only [Bind.bind, Except.bind] at h
      injection h with h
      rw [← h]
      exact handleNamed_error _ _ _ _ _ hn
    | ok v1 =>
      obtain ⟨st1, la⟩ := v1
      rw [hn] at h
      simp only [Bind.bind, Except.bind] at h
      cases hf : parseFlags 0 [] false la with
      | error e2 =>
        rw [hf] at h
        simp only [] at h
        injection h with h
        rw [← h, parseFlags_error _ _ _ _ _ hf]
        exact valueError_ne_notAll _
      | ok v2 =>
        obtain ⟨flags, ps, alt, lb⟩ := v2
        rw [hf] at h
        simp only [] at h
        cases hw : parseWidth st1 flags lb with
        | error e2 =>
          rw [hw] at h
          simp only [] at h
          injection h with h
          rw [← h]
          exact parseWidth_error _ _ _ _ hw
        | ok v3 =>
          obtain ⟨st2, flags2, width, lc⟩ := v3
          rw [hw] at h
          simp only [] at h
          cases hp : parsePrecision st2 lc with
          | error e2 =>
            rw [hp] at h
            simp only [] at h
            injection h with h
            rw [← h]
            exact parsePrecision_error _ _ _ hp
          | ok v4 =>
            obtain ⟨st3, precision, ld⟩ := v4
            rw [hp] at h
            simp only [] at h
            cases ld with
            | nil =>
              simp only [] at h
              injection h with h
              rw [← h]
              exact valueError_ne_notAll _
            | cons c2 le =>
              simp only [] at h
              cases ha : nextArg st3 with
              | error e2 =>
                rw [ha] at h
                simp only [] at h
                injection h with h
                rw [← h]
                exact nextArg_error _ _ ha
              | ok v5 =>
                obtain ⟨st4, arg⟩ := v5
                rw [ha] at h
                simp only [] at h
                exact dispatch_error _ _ _ _ _ _ _ _ _ _ _ _ h

/-- Errors escaping the scanning loop all come from `processDirective`,
so none of them is the excess-arguments error. -/
theorem formatLoop_error (fl : Flavor) (args : PyVal) (tl : Nat) :
    ∀ (fuel : Nat) (st : LoopState) (l : List Char) (e : PyErr),
    formatLoop fl args tl fuel st l = some (.error e) → ¬ isNotAllErr e := by
  intro fuel
  induction fuel with
  | zero =>
    intro st l e h
    exact absurd h (by simp [formatLoop])
  | succ n ih =>
    intro st l e h
    rw [formatLoop_of_pos fl args tl (n + 1) (Nat.succ_ne_zero n) st l] at h
    cases hsp : splitAtPercent l with
    | mk pre r =>
      rw [hsp] at h
      cases r with
      | none =>
        simp only [] at h
        injection h with h
        exact Except.noConfusion h
      | some rest =>
        simp only [] at h
        cases hpd : processDirective fl args tl { st with result := st.result ++ pre }
            rest with
        | error e2 =>
          rw [hpd] at h
          simp only [] at h
          injection h with h
          injection h with h
          rw [← h]
          exact processDirective_error _ _ _ _ _ _ hpd
        | ok v =>
          obtain ⟨st1, rest1⟩ := v
          rw [hpd] at h
          simp only [Nat.add_sub_cancel] at h
          exact ih st1 rest1 e h

/-- C10: when the arguments object is a mapping (and not a tuple or str),
the excess-arguments check is skipped entirely, so
`"not all arguments converted during ... formatting"` can never be raised:
positional arguments are only counted against the template when args is
positional.  Concretely, a directive-free template formats successfully
against any dict, e.g. `"abc" % {} == "abc"`. -/
theorem claim_C10_mapping_no_excess_check :
    (∀ (tmpl : List Char) (d : List (PyVal × PyVal)),
      str_format (.str tmpl) (.dict d) ≠
        .error (not_all_arguments_converted .text)) ∧
    (∀ (b : List Nat) (d : List (PyVal × PyVal)),
      bytes_format (.bytes b) (.dict d) ≠
        .error (not_all_arguments_converted .binary)) ∧
    str_format (.str ['a', 'b', 'c']) (.dict []) = .ok (.str ['a', 'b', 'c']) := by
  refine ⟨?_, ?_, rfl⟩
  · intro tmpl d h
    unfold str_format format at h
    simp only [as_str, pyStr] at h
    cases hlp : formatLoop .text (.dict d) tmpl.length (tmpl.length + 1)
        ⟨[.dict d], 0, none, []⟩ tmpl with
    | none =>
      rw [hlp] at h
      simp only [] at h
      injection h with h
      exact PyErr.noConfusion h
    | some r =>
      rw [hlp] at h
      cases r with
      | error e =>
        simp only [] at h
        injection h with h
        exact formatLoop_error _ _ _ _ _ _ _ hlp (.inl h)
      | ok st =>
        simp only [_tuple_check, _str_check, _mapping_check, Bool.false_or,
          Bool.or_false, Bool.not_true, Bool.or_self, Bool.false_eq_true,
          if_false] at h
        split_ifs at h <;> exact Except.noConfusion h
  · intro b d h
    unfold bytes_format format at h
    simp only [as_str] at h
    cases hdec : utf8Decode b with
    | error e =>
      rw [hdec] at h
      simp only [] at h
      injection h with h
      rw [utf8Decode_error b.length b (Nat.le_refl _) e hdec] at h
      exact PyErr.noConfusion h
    | ok s =>
      rw [hdec] at h
      simp only [] at h
      cases hlp : formatLoop .binary (.dict d) s.length (s.length + 1)
          ⟨[.dict d], 0, none, []⟩ s with
      | none =>
        rw [hlp] at h
        simp only [] at h
        injection h with h
        exact PyErr.noConfusion h
      | some r =>
        rw [hlp] at h
        cases r with
        | error e =>
          simp only [] at h
          injection h with h
          exact formatLoop_error _ _ _ _ _ _ _ hlp (.inr h)
        | ok st =>
          simp only [_tuple_check, _str_check, _mapping_check, Bool.false_or,
            Bool.or_false, Bool.not_true, Bool.or_self, Bool.false_eq_true,
            if_false] at h
          split_ifs at h <;> exact Except.noConfusion h

/-- Witness for C10: the universally quantified parts applied at a concrete
template, bytes template and dict. -/
theorem claim_C10_witness :
    str_format (.str ['%', '(', 'k', ')', 'd', '!']) (.dict [(.str ['k'], .int 7)]) ≠
      .error (not_all_arguments_converted .text) ∧
    bytes_format (.bytes [37, 40, 107, 41, 100]) (.dict [(.bytes [107], .int 7)]) ≠
      .error (not_all_arguments_converted .binary) :=
  ⟨claim_C10_mapping_no_excess_check.1 ['%', '(', 'k', ')', 'd', '!']
      [(.str ['k'], .int 7)],
    claim_C10_mapping_no_excess_check.2.1 [37, 40, 107, 41, 100]
      [(.bytes [107], .int 7)]⟩

end StrMod
